import Mathlib

/-!
Shallow embedding of `src/travel.py`, a travel-agency order manager whose
record-synchronization layer encodes structured orders into flat spreadsheet
rows and back, persists them wholesale to a Feishu sheet, and rolls the
in-memory collection back whenever a remote write fails.

Modelling conventions:
* machine text is `String` / `List Char`;
* Python `int` is `Int` (unbounded), Python `float` is an exact decimal
  rational (`ℚ`); binary rounding artefacts, `nan`/`inf` literals and the
  exponent rendering Python uses outside `[1e-4, 1e16)` are not modelled;
* parsed JSON cell content is the nested inductive `Json` below;
* all definitions are executable and kernel-reducible (recursions are
  structural, with explicit fuel where the source recursion is unbounded).
-/

namespace Travel

/-! ## Digits and Python number rendering

Python renders an `int` as decimal digits with an optional leading minus
sign, and a `float` as `<int part>.<frac part>` (always at least one digit
on each side of the point).  `float(s)` parses an optional sign, digits,
and an optional fractional part.
-/

/-- Character of a single decimal digit value. -/
def digitChar (d : Nat) : Char := Char.ofNat (48 + d)

/-- Test for an ASCII decimal digit. -/
def isDigitCh (c : Char) : Bool := 48 ≤ c.toNat && c.toNat ≤ 57

/-- Numeric value of an ASCII digit character. -/
def charVal (c : Char) : Nat := c.toNat - 48

/-- Little-endian decimal digits of `n`; `fuel` bounds the recursion and any
`fuel ≥ n` yields all digits. -/
def natDigitsAux : Nat → Nat → List Char
  | 0, _ => []
  | fuel + 1, n => if n = 0 then [] else digitChar (n % 10) :: natDigitsAux fuel (n / 10)

/-- Decimal digits of a natural number, most significant first. -/
def natChars (n : Nat) : List Char :=
  if n = 0 then ['0'] else (natDigitsAux n n).reverse

/-- Python `str` on an `int`. -/
def intChars (i : Int) : List Char :=
  if i < 0 then '-' :: natChars (-i).toNat else natChars i.toNat

/-- Value of a digit string, most significant digit first. -/
def charsToNat (cs : List Char) : Nat := cs.foldl (fun a c => a * 10 + charVal c) 0

/-- Value of a little-endian digit string. -/
def valLE (cs : List Char) : Nat := cs.foldr (fun c a => charVal c + 10 * a) 0

theorem charVal_digitChar {d : Nat} (h : d < 10) : charVal (digitChar d) = d := by
  interval_cases d <;> decide

theorem isDigitCh_digitChar {d : Nat} (h : d < 10) : isDigitCh (digitChar d) = true := by
  interval_cases d <;> decide

theorem natDigitsAux_val : ∀ fuel n, n ≤ fuel → valLE (natDigitsAux fuel n) = n := by
  intro fuel
  induction fuel with
  | zero => intro n hn; interval_cases n; rfl
  | succ fuel ih =>
    intro n hn
    by_cases h0 : n = 0
    · subst h0; simp [natDigitsAux, valLE]
    · have hdiv : n / 10 ≤ fuel := by
        have := Nat.div_lt_self (Nat.pos_of_ne_zero h0) (by omega : 1 < 10)
        omega
      have hmod : n % 10 < 10 := Nat.mod_lt _ (by omega)
      simp only [natDigitsAux, h0, if_false, valLE, List.foldr_cons]
      have := ih (n / 10) hdiv
      simp only [valLE] at this
      rw [this, charVal_digitChar hmod]
      omega

theorem natDigitsAux_digits : ∀ fuel n, ∀ c ∈ natDigitsAux fuel n, isDigitCh c = true := by
  intro fuel
  induction fuel with
  | zero => intro n c hc; simp [natDigitsAux] at hc
  | succ fuel ih =>
    intro n c hc
    by_cases h0 : n = 0
    · subst h0; simp [natDigitsAux] at hc
    · simp only [natDigitsAux, h0, if_false, List.mem_cons] at hc
      rcases hc with hc | hc
      · subst hc; exact isDigitCh_digitChar (Nat.mod_lt _ (by omega))
      · exact ih _ c hc

theorem natDigitsAux_length : ∀ fuel n k, n < 10 ^ k → (natDigitsAux fuel n).length ≤ k := by
  intro fuel
  induction fuel with
  | zero => intro n k _; simp [natDigitsAux]
  | succ fuel ih =>
    intro n k hk
    by_cases h0 : n = 0
    · subst h0; simp [natDigitsAux]
    · have hkpos : 1 ≤ k := by
        by_contra h
        have : k = 0 := by omega
        subst this
        simp at hk
        omega
      have hdiv : n / 10 < 10 ^ (k - 1) := by
        have h10 : (0:ℕ) < 10 := by omega
        rw [Nat.div_lt_iff_lt_mul h10]
        calc n < 10 ^ k := hk
        _ = 10 ^ (k - 1) * 10 := by
              rw [← pow_succ]
              congr 1
              omega
      simp only [natDigitsAux, h0, if_false, List.length_cons]
      have := ih (n / 10) (k - 1) hdiv
      omega

theorem charsToNat_append_singleton (L : List Char) (c : Char) :
    charsToNat (L ++ [c]) = charsToNat L * 10 + charVal c := by
  simp [charsToNat, List.foldl_append]

theorem charsToNat_reverse (L : List Char) : charsToNat L.reverse = valLE L := by
  induction L with
  | nil => rfl
  | cons c cs ih =>
    simp only [List.reverse_cons, charsToNat_append_singleton, ih, valLE, List.foldr_cons]
    simp only [valLE] at ih ⊢
    omega

theorem charsToNat_natChars (n : Nat) : charsToNat (natChars n) = n := by
  unfold natChars
  by_cases h0 : n = 0
  · subst h0; decide
  · simp only [h0, if_false]
    rw [charsToNat_reverse, natDigitsAux_val n n (le_refl n)]

theorem natChars_digits (n : Nat) : ∀ c ∈ natChars n, isDigitCh c = true := by
  unfold natChars
  by_cases h0 : n = 0
  · subst h0; intro c hc; simp at hc; subst hc; decide
  · simp only [h0, if_false]
    intro c hc
    exact natDigitsAux_digits n n c (List.mem_reverse.mp hc)

theorem natChars_ne_nil (n : Nat) : natChars n ≠ [] := by
  unfold natChars
  by_cases h0 : n = 0
  · subst h0; simp
  · simp only [h0, if_false]
    intro h
    have := natDigitsAux_val n n (le_refl n)
    rw [List.reverse_eq_nil_iff.mp h] at this
    simp [valLE] at this
    exact h0 this.symm

theorem natChars_length_le {n k : Nat} (hk : 1 ≤ k) (h : n < 10 ^ k) :
    (natChars n).length ≤ k := by
  unfold natChars
  by_cases h0 : n = 0
  · subst h0; simpa using hk
  · simp only [h0, if_false, List.length_reverse]
    exact natDigitsAux_length n n k h

theorem charsToNat_replicate_zero (j : Nat) (L : List Char) :
    charsToNat (List.replicate j '0' ++ L) = charsToNat L := by
  induction j with
  | zero => simp
  | succ j ih =>
    have : List.replicate (j + 1) '0' ++ L = '0' :: (List.replicate j '0' ++ L) := by
      simp [List.replicate_succ]
    rw [this]
    show List.foldl _ (0 * 10 + charVal '0') _ = _
    have hv : (0 : ℕ) * 10 + charVal '0' = 0 := by decide
    rw [hv]
    exact ih

/-! ### Python float printing

`str(x)` on a float whose value is the exact decimal rational `q` prints the
decimal expansion, with at least one digit on each side of the point
(`str(100.0) = "100.0"`, `str(0.05) = "0.05"`).
-/

/-- Multiplicity of `p` in `n` (number of times `p` divides `n`); `fuel`
bounds the recursion and any `fuel ≥ n` is exact. -/
def multAux (p : Nat) : Nat → Nat → Nat
  | 0, _ => 0
  | fuel + 1, n =>
    if 2 ≤ p ∧ n % p = 0 ∧ n ≠ 0 then multAux p fuel (n / p) + 1 else 0

/-- Multiplicity of the prime `p` in `n`. -/
def pmult (p n : Nat) : Nat := multAux p n n

/-- Width of the decimal expansion of a reduced fraction with denominator
`d`: the larger of the multiplicities of 2 and 5. -/
def decExp (d : Nat) : Nat := max (pmult 2 d) (pmult 5 d)

/-- Decidable test that `q` has a finite decimal expansion (its reduced
denominator divides the power of ten the printer uses). -/
def isDecimal (q : ℚ) : Bool := decide (q.den ∣ 10 ^ decExp q.den)

/-- Fractional-part digits: `m` zero-padded on the left to width `k`;
Python prints a lone `0` after the point when the value is integral. -/
def fracChars (k m : Nat) : List Char :=
  if k = 0 then ['0']
  else List.replicate (k - (natChars m).length) '0' ++ natChars m

/-- Python `str` on a non-negative float with exact decimal value `q`. -/
def pyFloatCharsNN (q : ℚ) : List Char :=
  let k := decExp q.den
  let n := (q * ((10 ^ k : ℕ) : ℚ)).num.toNat
  natChars (n / 10 ^ k) ++ '.' :: fracChars k (n % 10 ^ k)

/-- Python `str` on a float with exact decimal value `q`. -/
def pyFloatChars (q : ℚ) : List Char :=
  if q < 0 then '-' :: pyFloatCharsNN (-q) else pyFloatCharsNN q

/-! ### Python float parsing (`float(s)`)

The decimal forms `d+`, `d+.d*`, `.d+` and `d+.` with an optional sign are
accepted, mirroring `float` on the strings this program stores; exponent
notation, `inf`/`nan` and embedded whitespace are not modelled.
-/

/-- Longest digit prefix of a character list, with the remainder. -/
def takeDigits : List Char → List Char × List Char
  | [] => ([], [])
  | c :: cs =>
    if isDigitCh c then
      let p := takeDigits cs
      (c :: p.1, p.2)
    else ([], c :: cs)

/-- Parse an unsigned decimal literal occupying the whole input. -/
def parseUFloat (cs : List Char) : Option ℚ :=
  let p1 := takeDigits cs
  match p1.2 with
  | [] => if p1.1.isEmpty then none else some ((charsToNat p1.1 : ℕ) : ℚ)
  | '.' :: r2 =>
    let p2 := takeDigits r2
    if ¬ p2.2.isEmpty then none
    else if p1.1.isEmpty ∧ p2.1.isEmpty then none
    else some (((charsToNat p1.1 : ℕ) : ℚ) +
      ((charsToNat p2.1 : ℕ) : ℚ) / ((10 ^ p2.1.length : ℕ) : ℚ))
  | _ => none

/-- Python `float(s)` on the character list `s`. -/
def parsePyFloat (cs : List Char) : Option ℚ :=
  match cs with
  | '-' :: rest => (parseUFloat rest).map (fun q => -q)
  | '+' :: rest => parseUFloat rest
  | _ => parseUFloat cs

/-- Python `int(x)` on a float value: truncation toward zero. -/
def pyTrunc (q : ℚ) : Int := Int.tdiv q.num q.den

/-- Condition on the remaining input under which `takeDigits` stops at its
head. -/
def digitStop : List Char → Prop
  | [] => True
  | c :: _ => isDigitCh c = false

/-- Condition on the remaining input under which a whole decimal literal
parse stops exactly at the literal's end. -/
def numStop : List Char → Prop
  | [] => True
  | c :: _ => isDigitCh c = false ∧ c ≠ '.'

theorem numStop_digitStop {rest : List Char} (h : numStop rest) : digitStop rest := by
  cases rest with
  | nil => trivial
  | cons c cs => exact h.1

theorem takeDigits_split (ds rest : List Char) (hds : ∀ c ∈ ds, isDigitCh c = true)
    (hrest : digitStop rest) : takeDigits (ds ++ rest) = (ds, rest) := by
  induction ds with
  | nil =>
    cases rest with
    | nil => rfl
    | cons c cs =>
      have hc : isDigitCh c = false := hrest
      simp only [List.nil_append, takeDigits, hc, Bool.false_eq_true, if_false]
  | cons d ds ih =>
    have hd : isDigitCh d = true := hds d (by simp)
    simp only [List.cons_append, takeDigits, hd, if_true]
    have := ih (fun c hc => hds c (by simp [hc]))
    rw [show ds.append rest = ds ++ rest from rfl, this]

theorem digitStop_nil : digitStop [] := trivial

theorem parseUFloat_natChars (n : Nat) : parseUFloat (natChars n) = some (n : ℚ) := by
  unfold parseUFloat
  have h : takeDigits (natChars n ++ []) = (natChars n, []) :=
    takeDigits_split _ _ (natChars_digits n) digitStop_nil
  rw [List.append_nil] at h
  rw [h]
  simp [List.isEmpty_iff, natChars_ne_nil n, charsToNat_natChars]

theorem fracChars_digits (k m : Nat) : ∀ c ∈ fracChars k m, isDigitCh c = true := by
  unfold fracChars
  by_cases hk : k = 0
  · simp only [hk, if_true]
    intro c hc
    simp at hc
    subst hc
    decide
  · simp only [hk, if_false]
    intro c hc
    rcases List.mem_append.mp hc with hc | hc
    · have := List.eq_of_mem_replicate hc
      subst this
      decide
    · exact natChars_digits _ c hc

theorem charsToNat_fracChars {k : Nat} (m : Nat) (hk : k ≠ 0) :
    charsToNat (fracChars k m) = m := by
  unfold fracChars
  simp only [hk, if_false]
  rw [charsToNat_replicate_zero, charsToNat_natChars]

theorem fracChars_length {k m : Nat} (hk : 1 ≤ k) (hm : m < 10 ^ k) :
    (fracChars k m).length = k := by
  unfold fracChars
  have hk0 : k ≠ 0 := by omega
  simp only [hk0, if_false, List.length_append, List.length_replicate]
  have := natChars_length_le hk hm
  omega

theorem intToNat_cast_q {i : ℤ} (h : 0 ≤ i) : ((i.toNat : ℕ) : ℚ) = ((i : ℤ) : ℚ) := by
  exact_mod_cast congrArg (fun z : ℤ => (z : ℚ)) (Int.toNat_of_nonneg h)

theorem scaled_num_cast {q : ℚ} {k : Nat} (h0 : 0 ≤ q) (hd : q.den ∣ 10 ^ k) :
    (((q * ((10 ^ k : ℕ) : ℚ)).num.toNat : ℕ) : ℚ) = q * ((10 ^ k : ℕ) : ℚ) := by
  obtain ⟨c, hc⟩ := hd
  have hmul : q * ((10 ^ k : ℕ) : ℚ) = ((q.num * (c : ℤ) : ℤ) : ℚ) := by
    rw [hc]
    push_cast
    rw [← mul_assoc, Rat.mul_den_eq_num]
  have hnn : 0 ≤ q.num * (c : ℤ) :=
    mul_nonneg (Rat.num_nonneg.mpr h0) (Int.natCast_nonneg c)
  rw [hmul, Rat.num_intCast, intToNat_cast_q hnn]

theorem parseUFloat_assembled {k n : Nat} {q : ℚ}
    (hq : q = (n : ℚ) / ((10 ^ k : ℕ) : ℚ)) :
    parseUFloat (natChars (n / 10 ^ k) ++ '.' :: fracChars k (n % 10 ^ k)) = some q := by
  have hT0 : (((10 ^ k : ℕ) : ℚ)) ≠ 0 := by
    have h1 : (0:ℕ) < 10 ^ k := Nat.pos_pow_of_pos k (by omega)
    exact_mod_cast Nat.pos_iff_ne_zero.mp h1
  have hstop : digitStop ('.' :: fracChars k (n % 10 ^ k)) := by
    show isDigitCh '.' = false
    decide
  have hsplit1 : takeDigits (natChars (n / 10 ^ k) ++ '.' :: fracChars k (n % 10 ^ k)) =
      (natChars (n / 10 ^ k), '.' :: fracChars k (n % 10 ^ k)) :=
    takeDigits_split _ _ (natChars_digits _) hstop
  unfold parseUFloat
  rw [hsplit1]
  have hsplit2 : takeDigits (fracChars k (n % 10 ^ k)) = (fracChars k (n % 10 ^ k), []) := by
    have h2 := takeDigits_split (fracChars k (n % 10 ^ k)) [] (fracChars_digits _ _) digitStop_nil
    rwa [List.append_nil] at h2
  simp only [hsplit2]
  have hnonempty : (natChars (n / 10 ^ k)).isEmpty = false := by
    simp [List.isEmpty_iff, natChars_ne_nil]
  simp only [hnonempty, List.isEmpty_nil, Bool.not_false, if_true, Bool.false_eq_true,
    false_and, if_false]
  rw [charsToNat_natChars]
  by_cases hk0 : k = 0
  · subst hk0
    have hfrac : fracChars 0 (n % 10 ^ 0) = ['0'] := rfl
    rw [hfrac]
    have h1 : charsToNat ['0'] = 0 := by decide
    rw [h1]
    have h2 : q = (n : ℚ) := by
      rw [hq]
      norm_num
    rw [h2]
    norm_num
  · have hk1 : 1 ≤ k := Nat.pos_of_ne_zero hk0
    have hmlt : n % 10 ^ k < 10 ^ k := Nat.mod_lt _ (Nat.pos_pow_of_pos k (by omega))
    rw [charsToNat_fracChars _ hk0, fracChars_length hk1 hmlt]
    have hnat2 : (n / 10 ^ k) * 10 ^ k + n % 10 ^ k = n := Nat.div_add_mod' n (10 ^ k)
    have hval : ((n / 10 ^ k : ℕ) : ℚ) + ((n % 10 ^ k : ℕ) : ℚ) / ((10 ^ k : ℕ) : ℚ) =
        (n : ℚ) / ((10 ^ k : ℕ) : ℚ) := by
      rw [eq_div_iff hT0, add_mul, div_mul_cancel₀ _ hT0]
      exact_mod_cast hnat2
    rw [hval, ← hq]
    simp

theorem parseUFloat_pyFloatCharsNN {q : ℚ} (h0 : 0 ≤ q)
    (hd : q.den ∣ 10 ^ decExp q.den) :
    parseUFloat (pyFloatCharsNN q) = some q := by
  have hNN : pyFloatCharsNN q =
      natChars ((q * ((10 ^ decExp q.den : ℕ) : ℚ)).num.toNat / 10 ^ decExp q.den) ++
      '.' :: fracChars (decExp q.den)
        ((q * ((10 ^ decExp q.den : ℕ) : ℚ)).num.toNat % 10 ^ decExp q.den) := rfl
  rw [hNN]
  apply parseUFloat_assembled
  have hT0 : (((10 ^ decExp q.den : ℕ) : ℚ)) ≠ 0 := by
    have h1 : (0:ℕ) < 10 ^ decExp q.den := Nat.pos_pow_of_pos _ (by omega)
    exact_mod_cast Nat.pos_iff_ne_zero.mp h1
  rw [eq_div_iff hT0]
  exact (scaled_num_cast h0 hd).symm

theorem natChars_head (n : Nat) : ∃ c t, natChars n = c :: t ∧ isDigitCh c = true := by
  cases h : natChars n with
  | nil => exact absurd h (natChars_ne_nil n)
  | cons c t =>
    refine ⟨c, t, rfl, ?_⟩
    exact natChars_digits n c (h ▸ List.mem_cons_self c t)

theorem parsePyFloat_digit_head {c : Char} (cs : List Char) (hc : isDigitCh c = true) :
    parsePyFloat (c :: cs) = parseUFloat (c :: cs) := by
  have h1 : c ≠ '-' := by
    intro h
    subst h
    exact absurd hc (by decide)
  have h2 : c ≠ '+' := by
    intro h
    subst h
    exact absurd hc (by decide)
  unfold parsePyFloat
  split
  · rename_i heq
    injection heq with hh _
    exact absurd hh h1
  · rename_i heq
    injection heq with hh _
    exact absurd hh h2
  · rfl

theorem parsePyFloat_pyFloatChars {q : ℚ} (hq : isDecimal q = true) :
    parsePyFloat (pyFloatChars q) = some q := by
  have hd : q.den ∣ 10 ^ decExp q.den := of_decide_eq_true hq
  unfold pyFloatChars
  by_cases hneg : q < 0
  · simp only [hneg, if_true]
    have hd2 : (-q).den ∣ 10 ^ decExp (-q).den := by
      rw [Rat.den_neg_eq_den]
      exact hd
    show parsePyFloat ('-' :: pyFloatCharsNN (-q)) = some q
    have hstep : parsePyFloat ('-' :: pyFloatCharsNN (-q)) =
        (parseUFloat (pyFloatCharsNN (-q))).map (fun x => -x) := rfl
    rw [hstep, parseUFloat_pyFloatCharsNN (by linarith) hd2]
    simp
  · push_neg at hneg
    simp only [not_lt.mpr hneg, if_false]
    obtain ⟨c, t, hct, hcd⟩ := natChars_head
      ((q * ((10 ^ decExp q.den : ℕ) : ℚ)).num.toNat / 10 ^ decExp q.den)
    have hNN : pyFloatCharsNN q = c :: (t ++ '.' :: fracChars (decExp q.den)
        ((q * ((10 ^ decExp q.den : ℕ) : ℚ)).num.toNat % 10 ^ decExp q.den)) := by
      show natChars _ ++ '.' :: fracChars _ _ = _
      rw [hct]
      rfl
    rw [hNN, parsePyFloat_digit_head _ hcd, ← hNN]
    exact parseUFloat_pyFloatCharsNN hneg hd

theorem parsePyFloat_intChars (i : Int) : parsePyFloat (intChars i) = some ((i : ℤ) : ℚ) := by
  unfold intChars
  by_cases hneg : i < 0
  · simp only [hneg, if_true]
    have hstep : parsePyFloat ('-' :: natChars (-i).toNat) =
        (parseUFloat (natChars (-i).toNat)).map (fun x => -x) := rfl
    rw [hstep, parseUFloat_natChars]
    have hcast : (((-i).toNat : ℕ) : ℚ) = ((-i : ℤ) : ℚ) :=
      intToNat_cast_q (by omega : (0:ℤ) ≤ -i)
    simp only [Option.map, hcast]
    push_cast
    rw [neg_neg]
  · simp only [hneg, if_false]
    obtain ⟨c, t, hct, hcd⟩ := natChars_head i.toNat
    rw [hct, parsePyFloat_digit_head _ hcd, ← hct, parseUFloat_natChars]
    rw [intToNat_cast_q (by omega : (0:ℤ) ≤ i)]

theorem pyTrunc_intCast (i : Int) : pyTrunc ((i : ℤ) : ℚ) = i := by
  unfold pyTrunc
  rw [Rat.num_intCast, Rat.den_intCast]
  cases i with
  | ofNat n =>
    show Int.tdiv (Int.ofNat n) (Int.ofNat 1) = Int.ofNat n
    rw [Int.tdiv]
    simp
  | negSucc n =>
    show Int.tdiv (Int.negSucc n) (Int.ofNat 1) = Int.negSucc n
    rw [Int.tdiv]
    simp [Int.negSucc_eq]

/-! ## JSON values

Parsed JSON cell content (`json.loads`) and its compact rendering
(`json.dumps(value, ensure_ascii=False, separators=(',', ':'))`,
travel.py line 241).  Python keeps `int` and `float` apart, so the model
does too.  Control-character escaping, `\uXXXX` output and exponent
literals are not modelled; the strings this program writes never need
them.
-/

inductive Json where
  | str (s : String)
  | jint (n : Int)
  | jfloat (q : ℚ)
  | jbool (b : Bool)
  | jnull
  | arr (elems : List Json)
  | obj (fields : List (String × Json))

/-- JSON string escaping: quote and backslash get a backslash prefix. -/
def escChars : List Char → List Char
  | [] => []
  | c :: cs => if c = '"' ∨ c = '\\' then '\\' :: c :: escChars cs else c :: escChars cs

mutual

/-- Compact JSON rendering of a value. -/
def dumpJson : Json → List Char
  | .str s => '"' :: (escChars s.data ++ ['"'])
  | .jint n => intChars n
  | .jfloat q => pyFloatChars q
  | .jbool b => if b then ['t', 'r', 'u', 'e'] else ['f', 'a', 'l', 's', 'e']
  | .jnull => ['n', 'u', 'l', 'l']
  | .arr l => '[' :: (dumpArr l ++ [']'])
  | .obj fs => '{' :: (dumpObj fs ++ ['}'])

/-- Comma-separated rendering of array elements. -/
def dumpArr : List Json → List Char
  | [] => []
  | [v] => dumpJson v
  | v :: w :: vs => dumpJson v ++ ',' :: dumpArr (w :: vs)

/-- Comma-separated rendering of object members. -/
def dumpObj : List (String × Json) → List Char
  | [] => []
  | [(k, v)] => '"' :: (escChars k.data ++ '"' :: ':' :: dumpJson v)
  | (k, v) :: f :: fs =>
    ('"' :: (escChars k.data ++ '"' :: ':' :: dumpJson v)) ++ ',' :: dumpObj (f :: fs)

end

mutual

/-- Size measure feeding the parser's fuel bound. -/
def jsize : Json → Nat
  | .str _ => 1
  | .jint _ => 1
  | .jfloat _ => 1
  | .jbool _ => 1
  | .jnull => 1
  | .arr l => 1 + jsizeL l
  | .obj fs => 1 + jsizeO fs

def jsizeL : List Json → Nat
  | [] => 0
  | x :: xs => 1 + jsize x + jsizeL xs

def jsizeO : List (String × Json) → Nat
  | [] => 0
  | f :: fs => 1 + jsize f.2 + jsizeO fs

end

mutual

/-- Well-formedness used by the round-trip theorem: every float leaf has a
finite decimal expansion (Python floats serialized by this program always
do). -/
def wfJson : Json → Bool
  | .jfloat q => isDecimal q
  | .str _ => true
  | .jint _ => true
  | .jbool _ => true
  | .jnull => true
  | .arr l => wfArr l
  | .obj fs => wfObj fs

def wfArr : List Json → Bool
  | [] => true
  | x :: xs => wfJson x && wfArr xs

def wfObj : List (String × Json) → Bool
  | [] => true
  | f :: fs => wfJson f.2 && wfObj fs

end

/-- Inverse of the JSON escape map. -/
def unescChar (c : Char) : Option Char :=
  if c = '"' then some '"'
  else if c = '\\' then some '\\'
  else if c = '/' then some '/'
  else if c = 'n' then some '\n'
  else if c = 't' then some '\t'
  else if c = 'r' then some '\r'
  else if c = 'b' then some (Char.ofNat 8)
  else if c = 'f' then some (Char.ofNat 12)
  else none

/-- Parse the body of a JSON string up to the closing quote. -/
def parseJStr : List Char → Option (List Char × List Char)
  | [] => none
  | '"' :: rest => some ([], rest)
  | '\\' :: c :: rest =>
    match unescChar c with
    | some d => (parseJStr rest).map (fun p => (d :: p.1, p.2))
    | none => none
  | c :: rest => (parseJStr rest).map (fun p => (c :: p.1, p.2))

/-- Parse the digits of a JSON number after an optional minus sign. -/
def parseJNumCore (neg : Bool) (cs : List Char) : Option (Json × List Char) :=
  let p1 := takeDigits cs
  if p1.1.isEmpty then none
  else
    match p1.2 with
    | '.' :: r2 =>
      let p2 := takeDigits r2
      if p2.1.isEmpty then none
      else
        let q : ℚ := ((charsToNat p1.1 : ℕ) : ℚ) +
          ((charsToNat p2.1 : ℕ) : ℚ) / ((10 ^ p2.1.length : ℕ) : ℚ)
        some (.jfloat (if neg then -q else q), p2.2)
    | r => some (.jint (if neg then -((charsToNat p1.1 : ℕ) : ℤ) else ((charsToNat p1.1 : ℕ) : ℤ)), r)

/-- Parse a JSON number (exponent notation not modelled). -/
def parseJNum (cs : List Char) : Option (Json × List Char) :=
  match cs with
  | '-' :: cs1 => parseJNumCore true cs1
  | _ => parseJNumCore false cs

/-- Drop leading JSON whitespace. -/
def skipWs (cs : List Char) : List Char := cs.dropWhile (fun c => c.isWhitespace)

/-- Parser modes: a single value, the elements of an array after `[`, or
the members of an object after `{`. -/
inductive PMode where
  | val
  | arrTail
  | objTail

/-- Recursive-descent JSON parser; `fuel` bounds the recursion and any
fuel above the value's `jsize` is enough. -/
def parseF : Nat → PMode → List Char → Option (Json × List Char)
  | 0, _, _ => none
  | fuel + 1, .val, cs =>
    match skipWs cs with
    | [] => none
    | c :: rest =>
      if c = '"' then (parseJStr rest).map (fun p => (.str (String.mk p.1), p.2))
      else if c = '[' then
        (match skipWs rest with
         | ']' :: r => some (.arr [], r)
         | _ => parseF fuel .arrTail rest)
      else if c = '{' then
        (match skipWs rest with
         | '}' :: r => some (.obj [], r)
         | _ => parseF fuel .objTail rest)
      else if c = 't' then
        (match rest with
         | 'r' :: 'u' :: 'e' :: r2 => some (.jbool true, r2)
         | _ => none)
      else if c = 'f' then
        (match rest with
         | 'a' :: 'l' :: 's' :: 'e' :: r2 => some (.jbool false, r2)
         | _ => none)
      else if c = 'n' then
        (match rest with
         | 'u' :: 'l' :: 'l' :: r2 => some (.jnull, r2)
         | _ => none)
      else parseJNum (c :: rest)
  | fuel + 1, .arrTail, cs =>
    match parseF fuel .val cs with
    | some (v, r) =>
      (match skipWs r with
       | ']' :: r2 => some (.arr [v], r2)
       | ',' :: r2 =>
         (match parseF fuel .arrTail r2 with
          | some (.arr vs, r3) => some (.arr (v :: vs), r3)
          | _ => none)
       | _ => none)
    | none => none
  | fuel + 1, .objTail, cs =>
    match skipWs cs with
    | '"' :: rest =>
      (match parseJStr rest with
       | some (k, r1) =>
         (match skipWs r1 with
          | ':' :: r2 =>
            (match parseF fuel .val r2 with
             | some (v, r3) =>
               (match skipWs r3 with
                | '}' :: r4 => some (.obj [(String.mk k, v)], r4)
                | ',' :: r4 =>
                  (match parseF fuel .objTail r4 with
                   | some (.obj fs, r5) => some (.obj ((String.mk k, v) :: fs), r5)
                   | _ => none)
                | _ => none)
             | none => none)
          | _ => none)
       | none => none)
    | _ => none

/-- Python `json.loads`: parse one value and require only whitespace after
it. -/
def jsonLoads (cs : List Char) : Option Json :=
  match parseF (cs.length + 1) .val cs with
  | some (v, rest) => if (skipWs rest).isEmpty then some v else none
  | none => none

/-! ### JSON round trip -/

theorem skipWs_cons_not_ws {c : Char} (cs : List Char) (hc : c.isWhitespace = false) :
    skipWs (c :: cs) = c :: cs := by
  simp [skipWs, List.dropWhile_cons, hc]

theorem parseJStr_cons {c : Char} (cs : List Char) (h1 : c ≠ '"') (h2 : c ≠ '\\') :
    parseJStr (c :: cs) = (parseJStr cs).map (fun p => (c :: p.1, p.2)) := by
  unfold parseJStr
  split
  · rename_i heq
    exact absurd heq (by simp)
  · rename_i heq
    injection heq with hh _
    exact absurd hh h1
  · rename_i heq
    injection heq with hh _
    exact absurd hh h2
  · rename_i h3 heq
    injection heq with hh ht
    subst hh
    subst ht
    conv_rhs => rw [← parseJStr.eq_def]

theorem parseJStr_escChars (s rest : List Char) :
    parseJStr (escChars s ++ '"' :: rest) = some (s, rest) := by
  induction s with
  | nil => rfl
  | cons c cs ih =>
    by_cases hc : c = '"' ∨ c = '\\'
    · have hesc : escChars (c :: cs) = '\\' :: c :: escChars cs := by
        simp [escChars, hc]
      rw [hesc]
      have hun : unescChar c = some c := by
        rcases hc with hc | hc <;> subst hc <;> rfl
      show parseJStr ('\\' :: c :: (escChars cs ++ '"' :: rest)) = _
      rw [show parseJStr ('\\' :: c :: (escChars cs ++ '"' :: rest)) =
          match unescChar c with
          | some d => (parseJStr (escChars cs ++ '"' :: rest)).map (fun p => (d :: p.1, p.2))
          | none => none from rfl]
      rw [hun, ih]
      rfl
    · push_neg at hc
      have hesc : escChars (c :: cs) = c :: escChars cs := by
        simp [escChars, hc.1, hc.2]
      rw [hesc]
      show parseJStr (c :: (escChars cs ++ '"' :: rest)) = _
      rw [parseJStr_cons _ hc.1 hc.2, ih]
      rfl

theorem digit_head_props {c : Char} (hc : isDigitCh c = true) :
    c.isWhitespace = false ∧ c ≠ ']' ∧ c ≠ '}' := by
  have h1 : c ≠ ' ' := by intro h; subst h; exact absurd hc (by decide)
  have h2 : c ≠ '\t' := by intro h; subst h; exact absurd hc (by decide)
  have h3 : c ≠ '\r' := by intro h; subst h; exact absurd hc (by decide)
  have h4 : c ≠ '\n' := by intro h; subst h; exact absurd hc (by decide)
  have h5 : c ≠ ']' := by intro h; subst h; exact absurd hc (by decide)
  have h6 : c ≠ '}' := by intro h; subst h; exact absurd hc (by decide)
  refine ⟨?_, h5, h6⟩
  simp [Char.isWhitespace, h1, h2, h3, h4]

theorem dumpJson_head (v : Json) :
    ∃ c t, dumpJson v = c :: t ∧ c.isWhitespace = false ∧ c ≠ ']' ∧ c ≠ '}' := by
  cases v with
  | str s => exact ⟨'"', _, rfl, by decide, by decide, by decide⟩
  | jint n =>
    show ∃ c t, intChars n = c :: t ∧ _
    unfold intChars
    by_cases hn : n < 0
    · simp only [hn, if_true]
      exact ⟨'-', _, rfl, by decide, by decide, by decide⟩
    · simp only [hn, if_false]
      obtain ⟨c, t, hct, hcd⟩ := natChars_head n.toNat
      obtain ⟨p1, p2, p3⟩ := digit_head_props hcd
      exact ⟨c, t, hct, p1, p2, p3⟩
  | jfloat q =>
    show ∃ c t, pyFloatChars q = c :: t ∧ _
    unfold pyFloatChars
    by_cases hq : q < 0
    · simp only [hq, if_true]
      exact ⟨'-', _, rfl, by decide, by decide, by decide⟩
    · simp only [hq, if_false]
      obtain ⟨c, t, hct, hcd⟩ := natChars_head
        ((q * ((10 ^ decExp q.den : ℕ) : ℚ)).num.toNat / 10 ^ decExp q.den)
      obtain ⟨p1, p2, p3⟩ := digit_head_props hcd
      refine ⟨c, t ++ '.' :: fracChars (decExp q.den)
        ((q * ((10 ^ decExp q.den : ℕ) : ℚ)).num.toNat % 10 ^ decExp q.den), ?_, p1, p2, p3⟩
      show natChars _ ++ '.' :: fracChars _ _ = _
      rw [hct]
      rfl
  | jbool b =>
    refine ⟨if b then 't' else 'f', if b then "rue".data else "alse".data, ?_, ?_, ?_, ?_⟩
      <;> cases b <;> decide
  | jnull => exact ⟨'n', _, rfl, by decide, by decide, by decide⟩
  | arr l => exact ⟨'[', _, rfl, by decide, by decide, by decide⟩
  | obj fs => exact ⟨'{', _, rfl, by decide, by decide, by decide⟩

/-- Separator-and-tail of an array rendering after its first element. -/
def arrSep (xs : List Json) : List Char :=
  match xs with
  | [] => []
  | _ :: _ => ',' :: dumpArr xs

/-- Separator-and-tail of an object rendering after its first member. -/
def objSep (fs : List (String × Json)) : List Char :=
  match fs with
  | [] => []
  | _ :: _ => ',' :: dumpObj fs

theorem dumpArr_cons (x : Json) (xs : List Json) :
    dumpArr (x :: xs) = dumpJson x ++ arrSep xs := by
  cases xs with
  | nil => simp [dumpArr, arrSep]
  | cons y ys => rfl

theorem dumpObj_cons (k : String) (v : Json) (fs : List (String × Json)) :
    dumpObj ((k, v) :: fs) =
    ('"' :: (escChars k.data ++ '"' :: ':' :: dumpJson v)) ++ objSep fs := by
  cases fs with
  | nil => simp [dumpObj, objSep]
  | cons f fs2 => rfl

theorem fracChars_ne_nil (k m : Nat) : fracChars k m ≠ [] := by
  unfold fracChars
  by_cases hk : k = 0
  · simp [hk]
  · simp only [hk, if_false]
    intro h
    rcases List.append_eq_nil.mp h with ⟨_, h2⟩
    exact natChars_ne_nil m h2

theorem assembled_val {k n : Nat} {q : ℚ} (hq : q = (n : ℚ) / ((10 ^ k : ℕ) : ℚ)) :
    ((charsToNat (natChars (n / 10 ^ k)) : ℕ) : ℚ) +
      ((charsToNat (fracChars k (n % 10 ^ k)) : ℕ) : ℚ) /
        ((10 ^ (fracChars k (n % 10 ^ k)).length : ℕ) : ℚ) = q := by
  have hT0 : (((10 ^ k : ℕ) : ℚ)) ≠ 0 := by
    have h1 : (0:ℕ) < 10 ^ k := Nat.pos_pow_of_pos k (by omega)
    exact_mod_cast Nat.pos_iff_ne_zero.mp h1
  rw [charsToNat_natChars]
  by_cases hk0 : k = 0
  · subst hk0
    have hfrac : fracChars 0 (n % 10 ^ 0) = ['0'] := rfl
    rw [hfrac]
    have h1 : charsToNat ['0'] = 0 := by decide
    rw [h1]
    have h2 : q = (n : ℚ) := by
      rw [hq]
      norm_num
    rw [h2]
    norm_num
  · have hk1 : 1 ≤ k := Nat.pos_of_ne_zero hk0
    have hmlt : n % 10 ^ k < 10 ^ k := Nat.mod_lt _ (Nat.pos_pow_of_pos k (by omega))
    rw [charsToNat_fracChars _ hk0, fracChars_length hk1 hmlt]
    have hnat2 : (n / 10 ^ k) * 10 ^ k + n % 10 ^ k = n := Nat.div_add_mod' n (10 ^ k)
    rw [hq, eq_div_iff hT0, add_mul, div_mul_cancel₀ _ hT0]
    exact_mod_cast hnat2

theorem parseJNumCore_int (neg : Bool) (n : Nat) (rest : List Char) (hrest : numStop rest) :
    parseJNumCore neg (natChars n ++ rest) =
      some (.jint (if neg then -((n : ℕ) : ℤ) else ((n : ℕ) : ℤ)), rest) := by
  unfold parseJNumCore
  rw [takeDigits_split _ _ (natChars_digits n) (numStop_digitStop hrest)]
  have hne : (natChars n).isEmpty = false := by
    simp [List.isEmpty_iff, natChars_ne_nil]
  simp only [hne, Bool.false_eq_true, if_false]
  split
  · exact absurd rfl hrest.2
  · rw [charsToNat_natChars]

theorem parseJNumCore_float (neg : Bool) {k n : Nat} {q : ℚ}
    (hq : q = (n : ℚ) / ((10 ^ k : ℕ) : ℚ)) (rest : List Char) (hrest : numStop rest) :
    parseJNumCore neg
      (natChars (n / 10 ^ k) ++ '.' :: (fracChars k (n % 10 ^ k) ++ rest)) =
      some (.jfloat (if neg then -q else q), rest) := by
  unfold parseJNumCore
  have hstop : digitStop ('.' :: (fracChars k (n % 10 ^ k) ++ rest)) := by
    show isDigitCh '.' = false
    decide
  rw [takeDigits_split _ _ (natChars_digits _) hstop]
  have hne : (natChars (n / 10 ^ k)).isEmpty = false := by
    simp [List.isEmpty_iff, natChars_ne_nil]
  simp only [hne, Bool.false_eq_true, if_false]
  rw [takeDigits_split _ _ (fracChars_digits _ _) (numStop_digitStop hrest)]
  have hne2 : (fracChars k (n % 10 ^ k)).isEmpty = false := by
    simp [List.isEmpty_iff, fracChars_ne_nil]
  simp only [hne2, Bool.false_eq_true, if_false]
  rw [assembled_val hq]

theorem parseJNum_minus (cs : List Char) :
    parseJNum ('-' :: cs) = parseJNumCore true cs := rfl

theorem parseJNum_nonminus {c : Char} (cs : List Char) (hc : c ≠ '-') :
    parseJNum (c :: cs) = parseJNumCore false (c :: cs) := by
  unfold parseJNum
  split
  · rename_i heq
    injection heq with hh _
    exact absurd hh hc
  · rfl

theorem parseJNum_intChars (i : Int) (rest : List Char) (hrest : numStop rest) :
    parseJNum (intChars i ++ rest) = some (.jint i, rest) := by
  unfold intChars
  by_cases hneg : i < 0
  · simp only [hneg, if_true]
    show parseJNum ('-' :: (natChars (-i).toNat ++ rest)) = _
    rw [parseJNum_minus, parseJNumCore_int true _ _ hrest]
    have hcast : (((-i).toNat : ℕ) : ℤ) = -i := Int.toNat_of_nonneg (by omega)
    rw [if_pos rfl, hcast, neg_neg]
  · simp only [hneg, if_false]
    obtain ⟨c, t, hct, hcd⟩ := natChars_head i.toNat
    have hcm : c ≠ '-' := by
      intro h
      subst h
      exact absurd hcd (by decide)
    rw [hct, List.cons_append, parseJNum_nonminus _ hcm, ← List.cons_append, ← hct,
      parseJNumCore_int false _ _ hrest]
    have hcast : ((i.toNat : ℕ) : ℤ) = i := Int.toNat_of_nonneg (by omega)
    rw [if_neg (by simp), hcast]

theorem parseJNum_pyFloatChars {q : ℚ} (hd : isDecimal q = true) (rest : List Char)
    (hrest : numStop rest) :
    parseJNum (pyFloatChars q ++ rest) = some (.jfloat q, rest) := by
  have hdvd : q.den ∣ 10 ^ decExp q.den := of_decide_eq_true hd
  unfold pyFloatChars
  by_cases hneg : q < 0
  · simp only [hneg, if_true]
    have hdvd2 : (-q).den ∣ 10 ^ decExp (-q).den := by
      rw [Rat.den_neg_eq_den]
      exact hdvd
    have hq2 : -q = ((((-q) * ((10 ^ decExp (-q).den : ℕ) : ℚ)).num.toNat : ℕ) : ℚ) /
        ((10 ^ decExp (-q).den : ℕ) : ℚ) := by
      have hT0 : (((10 ^ decExp (-q).den : ℕ) : ℚ)) ≠ 0 := by
        have h1 : (0:ℕ) < 10 ^ decExp (-q).den := Nat.pos_pow_of_pos _ (by omega)
        exact_mod_cast Nat.pos_iff_ne_zero.mp h1
      rw [eq_div_iff hT0]
      exact (scaled_num_cast (by linarith) hdvd2).symm
    show parseJNum ('-' :: (pyFloatCharsNN (-q) ++ rest)) = _
    rw [parseJNum_minus]
    have hNN : pyFloatCharsNN (-q) ++ rest =
        natChars (((-q) * ((10 ^ decExp (-q).den : ℕ) : ℚ)).num.toNat / 10 ^ decExp (-q).den) ++
        '.' :: (fracChars (decExp (-q).den)
          (((-q) * ((10 ^ decExp (-q).den : ℕ) : ℚ)).num.toNat % 10 ^ decExp (-q).den) ++ rest) := by
      show (natChars _ ++ '.' :: fracChars _ _) ++ rest = _
      simp [List.append_assoc]
    rw [hNN, parseJNumCore_float true hq2 rest hrest]
    rw [if_pos rfl, neg_neg]
  · push_neg at hneg
    simp only [not_lt.mpr hneg, if_false]
    have hq2 : q = (((q * ((10 ^ decExp q.den : ℕ) : ℚ)).num.toNat : ℕ) : ℚ) /
        ((10 ^ decExp q.den : ℕ) : ℚ) := by
      have hT0 : (((10 ^ decExp q.den : ℕ) : ℚ)) ≠ 0 := by
        have h1 : (0:ℕ) < 10 ^ decExp q.den := Nat.pos_pow_of_pos _ (by omega)
        exact_mod_cast Nat.pos_iff_ne_zero.mp h1
      rw [eq_div_iff hT0]
      exact (scaled_num_cast hneg hdvd).symm
    obtain ⟨c, t, hct, hcd⟩ := natChars_head
      ((q * ((10 ^ decExp q.den : ℕ) : ℚ)).num.toNat / 10 ^ decExp q.den)
    have hcm : c ≠ '-' := by
      intro h
      subst h
      exact absurd hcd (by decide)
    have hNN : pyFloatCharsNN q ++ rest =
        natChars ((q * ((10 ^ decExp q.den : ℕ) : ℚ)).num.toNat / 10 ^ decExp q.den) ++
        '.' :: (fracChars (decExp q.den)
          ((q * ((10 ^ decExp q.den : ℕ) : ℚ)).num.toNat % 10 ^ decExp q.den) ++ rest) := by
      show (natChars _ ++ '.' :: fracChars _ _) ++ rest = _
      simp [List.append_assoc]
    have hhead : pyFloatCharsNN q ++ rest = c :: (t ++ '.' :: (fracChars (decExp q.den)
        ((q * ((10 ^ decExp q.den : ℕ) : ℚ)).num.toNat % 10 ^ decExp q.den) ++ rest)) := by
      rw [hNN, hct]
      rfl
    rw [hhead, parseJNum_nonminus _ hcm, ← hhead, hNN,
      parseJNumCore_float false hq2 rest hrest]
    rw [if_neg (by simp)]

theorem parseF_val_num (fuel : Nat) {c : Char} (cs : List Char)
    (hc : isDigitCh c = true ∨ c = '-') :
    parseF (fuel + 1) .val (c :: cs) = parseJNum (c :: cs) := by
  have hws : c.isWhitespace = false := by
    rcases hc with hc | hc
    · exact (digit_head_props hc).1
    · subst hc; decide
  have hne : ∀ d : Char, isDigitCh d = false → d ≠ '-' → c ≠ d := by
    intro d hd hd2 h
    subst h
    rcases hc with hc | hc
    · rw [hc] at hd
      simp at hd
    · exact hd2 hc
  show parseF (fuel + 1) .val (c :: cs) = _
  simp only [parseF]
  rw [skipWs_cons_not_ws _ hws]
  show (if c = '"' then (parseJStr cs).map (fun p => (Json.str (String.mk p.1), p.2))
      else if c = '[' then
        (match skipWs cs with
         | ']' :: r => some (Json.arr [], r)
         | _ => parseF fuel .arrTail cs)
      else if c = '{' then
        (match skipWs cs with
         | '}' :: r => some (Json.obj [], r)
         | _ => parseF fuel .objTail cs)
      else if c = 't' then
        (match cs with
         | 'r' :: 'u' :: 'e' :: r2 => some (Json.jbool true, r2)
         | _ => none)
      else if c = 'f' then
        (match cs with
         | 'a' :: 'l' :: 's' :: 'e' :: r2 => some (Json.jbool false, r2)
         | _ => none)
      else if c = 'n' then
        (match cs with
         | 'u' :: 'l' :: 'l' :: r2 => some (Json.jnull, r2)
         | _ => none)
      else parseJNum (c :: cs)) = parseJNum (c :: cs)
  rw [if_neg (hne '"' (by decide) (by decide)),
    if_neg (hne '[' (by decide) (by decide)),
    if_neg (hne '{' (by decide) (by decide)),
    if_neg (hne 't' (by decide) (by decide)),
    if_neg (hne 'f' (by decide) (by decide)),
    if_neg (hne 'n' (by decide) (by decide))]

theorem parseF_val_cons (fuel : Nat) {c : Char} (cs : List Char) (hws : c.isWhitespace = false) :
    parseF (fuel + 1) .val (c :: cs) =
      (if c = '"' then (parseJStr cs).map (fun p => (Json.str (String.mk p.1), p.2))
      else if c = '[' then
        (match skipWs cs with
         | ']' :: r => some (Json.arr [], r)
         | _ => parseF fuel .arrTail cs)
      else if c = '{' then
        (match skipWs cs with
         | '}' :: r => some (Json.obj [], r)
         | _ => parseF fuel .objTail cs)
      else if c = 't' then
        (match cs with
         | 'r' :: 'u' :: 'e' :: r2 => some (Json.jbool true, r2)
         | _ => none)
      else if c = 'f' then
        (match cs with
         | 'a' :: 'l' :: 's' :: 'e' :: r2 => some (Json.jbool false, r2)
         | _ => none)
      else if c = 'n' then
        (match cs with
         | 'u' :: 'l' :: 'l' :: r2 => some (Json.jnull, r2)
         | _ => none)
      else parseJNum (c :: cs)) := by
  simp only [parseF]
  rw [skipWs_cons_not_ws _ hws]

theorem intChars_head (i : Int) :
    ∃ c t, intChars i = c :: t ∧ (isDigitCh c = true ∨ c = '-') := by
  unfold intChars
  by_cases hneg : i < 0
  · simp only [hneg, if_true]
    exact ⟨'-', _, rfl, Or.inr rfl⟩
  · simp only [hneg, if_false]
    obtain ⟨c, t, hct, hcd⟩ := natChars_head i.toNat
    exact ⟨c, t, hct, Or.inl hcd⟩

theorem pyFloatChars_head (q : ℚ) :
    ∃ c t, pyFloatChars q = c :: t ∧ (isDigitCh c = true ∨ c = '-') := by
  unfold pyFloatChars
  by_cases hneg : q < 0
  · simp only [hneg, if_true]
    exact ⟨'-', _, rfl, Or.inr rfl⟩
  · simp only [hneg, if_false]
    obtain ⟨c, t, hct, hcd⟩ := natChars_head
      ((q * ((10 ^ decExp q.den : ℕ) : ℚ)).num.toNat / 10 ^ decExp q.den)
    refine ⟨c, t ++ '.' :: fracChars (decExp q.den)
      ((q * ((10 ^ decExp q.den : ℕ) : ℚ)).num.toNat % 10 ^ decExp q.den), ?_, Or.inl hcd⟩
    show natChars _ ++ '.' :: fracChars _ _ = _
    rw [hct]
    rfl

theorem skipWs_dump_append (v : Json) (B : List Char) :
    skipWs (dumpJson v ++ B) = dumpJson v ++ B := by
  obtain ⟨c, t, hct, hw, _, _⟩ := dumpJson_head v
  rw [hct, List.cons_append, skipWs_cons_not_ws _ hw]

theorem parse_dump : ∀ fuel : Nat,
    (∀ v rest, wfJson v = true → jsize v < fuel → numStop rest →
      parseF fuel .val (dumpJson v ++ rest) = some (v, rest)) ∧
    (∀ l rest, wfArr l = true → l ≠ [] → jsizeL l < fuel →
      parseF fuel .arrTail (dumpArr l ++ ']' :: rest) = some (.arr l, rest)) ∧
    (∀ fs rest, wfObj fs = true → fs ≠ [] → jsizeO fs < fuel →
      parseF fuel .objTail (dumpObj fs ++ '}' :: rest) = some (.obj fs, rest)) := by
  intro fuel
  induction fuel with
  | zero =>
    refine ⟨fun v rest _ h _ => absurd h (by omega),
      fun l rest _ _ h => absurd h (by omega),
      fun fs rest _ _ h => absurd h (by omega)⟩
  | succ fuel ih =>
    obtain ⟨ihv, iha, iho⟩ := ih
    refine ⟨?_, ?_, ?_⟩
    · intro v rest hwf hsz hrest
      cases v with
      | str s =>
        have hform : dumpJson (.str s) ++ rest = '"' :: (escChars s.data ++ '"' :: rest) := by
          show ('"' :: (escChars s.data ++ ['"'])) ++ rest = _
          simp
        rw [hform, parseF_val_cons fuel _ (by decide), if_pos rfl, parseJStr_escChars]
        rfl
      | jint i =>
        obtain ⟨c, t, hct, hcd⟩ := intChars_head i
        show parseF (fuel + 1) .val (intChars i ++ rest) = _
        rw [hct, List.cons_append, parseF_val_num fuel _ hcd, ← List.cons_append, ← hct,
          parseJNum_intChars i rest hrest]
      | jfloat q =>
        obtain ⟨c, t, hct, hcd⟩ := pyFloatChars_head q
        show parseF (fuel + 1) .val (pyFloatChars q ++ rest) = _
        rw [hct, List.cons_append, parseF_val_num fuel _ hcd, ← List.cons_append, ← hct,
          parseJNum_pyFloatChars hwf rest hrest]
      | jbool b =>
        cases b with
        | true =>
          rw [show dumpJson (.jbool true) ++ rest = 't' :: ('r' :: 'u' :: 'e' :: rest) from rfl,
            parseF_val_cons fuel _ (by decide),
            if_neg (by decide), if_neg (by decide), if_neg (by decide), if_pos rfl]
          rfl
        | false =>
          rw [show dumpJson (.jbool false) ++ rest = 'f' :: ('a' :: 'l' :: 's' :: 'e' :: rest)
              from rfl,
            parseF_val_cons fuel _ (by decide), if_neg (by decide), if_neg (by decide),
            if_neg (by decide), if_neg (by decide), if_pos rfl]
          rfl
      | jnull =>
        rw [show dumpJson .jnull ++ rest = 'n' :: ('u' :: 'l' :: 'l' :: rest) from rfl,
          parseF_val_cons fuel _ (by decide), if_neg (by decide), if_neg (by decide),
          if_neg (by decide), if_neg (by decide), if_neg (by decide), if_pos rfl]
        rfl
      | arr l =>
        cases l with
        | nil =>
          rw [show dumpJson (.arr []) ++ rest = '[' :: (']' :: rest) from rfl,
            parseF_val_cons fuel _ (by decide), if_neg (by decide), if_pos rfl,
            skipWs_cons_not_ws _ (by decide)]
          rfl
        | cons x xs =>
          have hwf2 : wfArr (x :: xs) = true := hwf
          have hsz2 : jsizeL (x :: xs) < fuel := by
            simp only [jsize] at hsz
            omega
          have hform : dumpJson (.arr (x :: xs)) ++ rest =
              '[' :: (dumpArr (x :: xs) ++ ']' :: rest) := by
            show ('[' :: (dumpArr (x :: xs) ++ [']'])) ++ rest = _
            simp
          have hscrut : skipWs (dumpArr (x :: xs) ++ ']' :: rest) =
              dumpArr (x :: xs) ++ ']' :: rest := by
            rw [dumpArr_cons, List.append_assoc]
            exact skipWs_dump_append x _
          rw [hform, parseF_val_cons fuel _ (by decide), if_neg (by decide), if_pos rfl,
            hscrut]
          split
          · rename_i r heq
            obtain ⟨c, t, hct, _, hb, _⟩ := dumpJson_head x
            rw [dumpArr_cons, hct, List.cons_append, List.cons_append] at heq
            injection heq with hh _
            exact absurd hh hb
          · exact iha (x :: xs) rest hwf2 (by simp) hsz2
      | obj fs =>
        cases fs with
        | nil =>
          rw [show dumpJson (.obj []) ++ rest = '{' :: ('}' :: rest) from rfl,
            parseF_val_cons fuel _ (by decide), if_neg (by decide), if_neg (by decide),
            if_pos rfl, skipWs_cons_not_ws _ (by decide)]
          rfl
        | cons f fs2 =>
          obtain ⟨k, v⟩ := f
          have hwf2 : wfObj ((k, v) :: fs2) = true := hwf
          have hsz2 : jsizeO ((k, v) :: fs2) < fuel := by
            simp only [jsize] at hsz
            omega
          have hform : dumpJson (.obj ((k, v) :: fs2)) ++ rest =
              '{' :: (dumpObj ((k, v) :: fs2) ++ '}' :: rest) := by
            show ('{' :: (dumpObj ((k, v) :: fs2) ++ ['}'])) ++ rest = _
            simp
          have hscrut : skipWs (dumpObj ((k, v) :: fs2) ++ '}' :: rest) =
              dumpObj ((k, v) :: fs2) ++ '}' :: rest := by
            rw [dumpObj_cons]
            exact skipWs_cons_not_ws _ (by decide)
          rw [hform, parseF_val_cons fuel _ (by decide), if_neg (by decide), if_neg (by decide),
            if_pos rfl, hscrut]
          split
          · rename_i r heq
            rw [dumpObj_cons, List.cons_append, List.cons_append] at heq
            injection heq with hh _
            exact absurd hh (by decide)
          · exact iho ((k, v) :: fs2) rest hwf2 (by simp) hsz2
    · intro l rest hwf hne hsz
      cases l with
      | nil => exact absurd rfl hne
      | cons x xs =>
        have hwfx : wfJson x = true := by
          have h2 : (wfJson x && wfArr xs) = true := hwf
          exact (Bool.and_eq_true_iff.mp h2).1
        have hwfxs : wfArr xs = true := by
          have h2 : (wfJson x && wfArr xs) = true := hwf
          exact (Bool.and_eq_true_iff.mp h2).2
        have hszx : jsize x < fuel := by
          simp only [jsizeL] at hsz
          omega
        have hform : dumpArr (x :: xs) ++ ']' :: rest =
            dumpJson x ++ (arrSep xs ++ ']' :: rest) := by
          rw [dumpArr_cons, List.append_assoc]
        have hstop : numStop (arrSep xs ++ ']' :: rest) := by
          cases xs with
          | nil => exact ⟨by decide, by decide⟩
          | cons y ys => exact ⟨by decide, by decide⟩
        simp only [parseF]
        rw [hform, ihv x _ hwfx hszx hstop]
        cases xs with
        | nil =>
          have hsw : skipWs (arrSep [] ++ ']' :: rest) = ']' :: rest :=
            skipWs_cons_not_ws _ (by decide)
          simp [hsw]
        | cons y ys =>
          have hsw : skipWs (arrSep (y :: ys) ++ ']' :: rest) =
              ',' :: (dumpArr (y :: ys) ++ ']' :: rest) :=
            skipWs_cons_not_ws _ (by decide)
          have hszxs : jsizeL (y :: ys) < fuel := by
            simp only [jsizeL] at hsz ⊢
            omega
          have htail := iha (y :: ys) rest hwfxs (by simp) hszxs
          simp [hsw, htail]
    · intro fs rest hwf hne hsz
      cases fs with
      | nil => exact absurd rfl hne
      | cons f fs2 =>
        obtain ⟨k, v⟩ := f
        have hwfv : wfJson v = true := by
          have h2 : (wfJson v && wfObj fs2) = true := hwf
          exact (Bool.and_eq_true_iff.mp h2).1
        have hwffs : wfObj fs2 = true := by
          have h2 : (wfJson v && wfObj fs2) = true := hwf
          exact (Bool.and_eq_true_iff.mp h2).2
        have hszv : jsize v < fuel := by
          simp only [jsizeO] at hsz
          omega
        have hform : dumpObj ((k, v) :: fs2) ++ '}' :: rest =
            '"' :: (escChars k.data ++ '"' :: (':' :: (dumpJson v ++
              (objSep fs2 ++ '}' :: rest)))) := by
          rw [dumpObj_cons]
          simp [List.append_assoc]
        have hstop : numStop (objSep fs2 ++ '}' :: rest) := by
          cases fs2 with
          | nil => exact ⟨by decide, by decide⟩
          | cons g gs => exact ⟨by decide, by decide⟩
        simp only [parseF]
        rw [hform, skipWs_cons_not_ws _ (by decide)]
        have hstr := parseJStr_escChars k.data
          (':' :: (dumpJson v ++ (objSep fs2 ++ '}' :: rest)))
        have hsw2 : skipWs (':' :: (dumpJson v ++ (objSep fs2 ++ '}' :: rest))) =
            ':' :: (dumpJson v ++ (objSep fs2 ++ '}' :: rest)) :=
          skipWs_cons_not_ws _ (by decide)
        have hval := ihv v (objSep fs2 ++ '}' :: rest) hwfv hszv hstop
        cases fs2 with
        | nil =>
          have hsw3 : skipWs (objSep ([] : List (String × Json)) ++ '}' :: rest) =
              '}' :: rest := skipWs_cons_not_ws _ (by decide)
          simp [hstr, hsw2, hval, hsw3]
        | cons g gs =>
          have hsw3 : skipWs (objSep (g :: gs) ++ '}' :: rest) =
              ',' :: (dumpObj (g :: gs) ++ '}' :: rest) :=
            skipWs_cons_not_ws _ (by decide)
          have hszgs : jsizeO (g :: gs) < fuel := by
            simp only [jsizeO] at hsz ⊢
            omega
          have htail := iho (g :: gs) rest hwffs (by simp) hszgs
          simp [hstr, hsw2, hval, hsw3, htail]

mutual

theorem jsize_le_dump : ∀ v : Json, jsize v ≤ (dumpJson v).length
  | .str s => by simp [jsize, dumpJson]
  | .jint n => by
    have h1 : natChars (-n).toNat ≠ [] := natChars_ne_nil _
    have h2 : natChars n.toNat ≠ [] := natChars_ne_nil _
    simp only [jsize, dumpJson, intChars]
    by_cases hn : n < 0
    · simp [hn]
    · simp only [hn, if_false]
      have := List.length_pos.mpr h2
      omega
  | .jfloat q => by
    simp only [jsize, dumpJson, pyFloatChars]
    by_cases hq : q < 0
    · simp [hq]
    · simp only [hq, if_false]
      show 1 ≤ (pyFloatCharsNN q).length
      show 1 ≤ (natChars _ ++ '.' :: fracChars _ _).length
      simp
      omega
  | .jbool b => by cases b <;> simp [jsize, dumpJson]
  | .jnull => by simp [jsize, dumpJson]
  | .arr l => by
    have := jsizeL_le_dump l
    simp only [jsize, dumpJson, List.length_cons, List.length_append]
    simp at this ⊢
    omega
  | .obj fs => by
    have := jsizeO_le_dump fs
    simp only [jsize, dumpJson, List.length_cons, List.length_append]
    simp at this ⊢
    omega

theorem jsizeL_le_dump : ∀ l : List Json, jsizeL l ≤ (dumpArr l).length + 1
  | [] => by simp [jsizeL, dumpArr]
  | [x] => by
    have := jsize_le_dump x
    simp only [jsizeL, dumpArr]
    omega
  | x :: y :: ys => by
    have h1 := jsize_le_dump x
    have h2 := jsizeL_le_dump (y :: ys)
    simp only [jsizeL, dumpArr, List.length_append, List.length_cons] at h1 h2 ⊢
    omega

theorem jsizeO_le_dump : ∀ fs : List (String × Json), jsizeO fs ≤ (dumpObj fs).length + 1
  | [] => by simp [jsizeO, dumpObj]
  | [(k, v)] => by
    have := jsize_le_dump v
    simp only [jsizeO, dumpObj, List.length_cons, List.length_append]
    omega
  | (k, v) :: f :: fs => by
    have h1 := jsize_le_dump v
    have h2 := jsizeO_le_dump (f :: fs)
    simp only [jsizeO, dumpObj, List.length_append, List.length_cons] at h1 h2 ⊢
    omega

end

/-- Round trip at the `json.loads`/`json.dumps` level. -/
theorem jsonLoads_dump {v : Json} (hwf : wfJson v = true) :
    jsonLoads (dumpJson v) = some v := by
  unfold jsonLoads
  have hfuel : jsize v < (dumpJson v).length + 1 := by
    have := jsize_le_dump v
    omega
  have h := (parse_dump ((dumpJson v).length + 1)).1 v [] hwf hfuel trivial
  rw [List.append_nil] at h
  rw [h]
  rfl

/-! ## The tabular codec

`EXPECTED_COLS` (travel.py line 29), the row encoding of
`save_data_to_feishu` (lines 232-254) and the row decoding of
`load_data_from_feishu` (lines 154-192).
-/

/-- Expected spreadsheet header, `EXPECTED_COLS`. -/
def EXPECTED_COLS : List String :=
  ["id", "customer_name", "customer_phone", "departure_date", "customer_notes",
   "payment_methods", "deposit_amount", "final_payment_amount", "total_payment_amount",
   "lines", "adult_count", "child_count", "adult_price", "child_price",
   "total_pax_price", "partners", "total_revenue", "total_cost", "profit",
   "total_collection", "created_at", "updated_at"]

/-- An order record as held in `st.session_state.orders`, one field per
`EXPECTED_COLS` column.  The three JSON-array columns hold parsed JSON
content (`load_data_from_feishu` keeps whatever `safe_json_loads` returns,
as long as it is a list). -/
structure Order where
  id : Int
  customer_name : String
  customer_phone : String
  departure_date : String
  customer_notes : String
  payment_methods : List Json
  deposit_amount : ℚ
  final_payment_amount : ℚ
  total_payment_amount : ℚ
  lines : List Json
  adult_count : Int
  child_count : Int
  adult_price : ℚ
  child_price : ℚ
  total_pax_price : ℚ
  partners : List Json
  total_revenue : ℚ
  total_cost : ℚ
  profit : ℚ
  total_collection : ℚ
  created_at : String
  updated_at : String

/-- Row encoding from `save_data_to_feishu` (lines 232-254): one cell per
`EXPECTED_COLS` column; lists/dicts are rendered as compact JSON
(`json.dumps(..., ensure_ascii=False, separators=(',', ':'))`), numbers via
`str`, text passes through (`str` on a string), `None` never occurs in a
typed record. -/
def encodeOrder (o : Order) : List String :=
  [String.mk (intChars o.id),
   o.customer_name,
   o.customer_phone,
   o.departure_date,
   o.customer_notes,
   String.mk (dumpJson (.arr o.payment_methods)),
   String.mk (pyFloatChars o.deposit_amount),
   String.mk (pyFloatChars o.final_payment_amount),
   String.mk (pyFloatChars o.total_payment_amount),
   String.mk (dumpJson (.arr o.lines)),
   String.mk (intChars o.adult_count),
   String.mk (intChars o.child_count),
   String.mk (pyFloatChars o.adult_price),
   String.mk (pyFloatChars o.child_price),
   String.mk (pyFloatChars o.total_pax_price),
   String.mk (dumpJson (.arr o.partners)),
   String.mk (pyFloatChars o.total_revenue),
   String.mk (pyFloatChars o.total_cost),
   String.mk (pyFloatChars o.profit),
   String.mk (pyFloatChars o.total_collection),
   o.created_at,
   o.updated_at]

/-- Python `s.lower() == 'nan'`. -/
def isNanStr (s : String) : Bool := s.data.map Char.toLower == ['n', 'a', 'n']

/-- `safe_json_loads` (lines 81-101): a non-string or blank cell gives `[]`,
so does the text `nan`; a standard JSON parse is tried first, then a
forgiving retry with single quotes replaced by double quotes; on total
failure the result is `[]`. -/
def safeJsonLoads (s : String) : Json :=
  if s.data.all (fun c => c.isWhitespace) then .arr []
  else if isNanStr s then .arr []
  else
    match jsonLoads s.data with
    | some v => v
    | none =>
      match jsonLoads (s.data.map (fun c => if c = Char.ofNat 39 then '"' else c)) with
      | some v => v
      | none => .arr []

/-- Integer cell conversion (lines 168-169, 185):
`int(float(value)) if value not in [None, ''] else 0`, any failure giving 0. -/
def intCell (s : String) : Int :=
  if s = "" then 0
  else
    match parsePyFloat s.data with
    | some q => pyTrunc q
    | none => 0

/-- Decimal cell conversion (lines 170-171, 186):
`float(value) if value not in [None, ''] else 0.0`, any failure giving 0.0. -/
def floatCell (s : String) : ℚ :=
  if s = "" then 0
  else
    match parsePyFloat s.data with
    | some q => q
    | none => 0

/-- JSON-array cell conversion (lines 172-176, 187): parse via
`safe_json_loads` and keep the result only if it is a list. -/
def jsonListCell (s : String) : List Json :=
  match safeJsonLoads s with
  | .arr l => l
  | _ => []

/-- Pad a short row with empty cells to the header width
(`padded_row = row + [''] * (len(header_row) - len(row))`, line 162). -/
def padRow (row : List String) : List String :=
  row ++ List.replicate (EXPECTED_COLS.length - row.length) ""

/-- Decode one data row against the expected header: the per-column loop of
`load_data_from_feishu` (lines 164-188).  Text and date columns pass
through; numeric and JSON columns convert with type-specific defaults on
failure. -/
def decodeRow (row : List String) : Order :=
  let p := padRow row
  { id := intCell (p.getD 0 "")
    customer_name := p.getD 1 ""
    customer_phone := p.getD 2 ""
    departure_date := p.getD 3 ""
    customer_notes := p.getD 4 ""
    payment_methods := jsonListCell (p.getD 5 "")
    deposit_amount := floatCell (p.getD 6 "")
    final_payment_amount := floatCell (p.getD 7 "")
    total_payment_amount := floatCell (p.getD 8 "")
    lines := jsonListCell (p.getD 9 "")
    adult_count := intCell (p.getD 10 "")
    child_count := intCell (p.getD 11 "")
    adult_price := floatCell (p.getD 12 "")
    child_price := floatCell (p.getD 13 "")
    total_pax_price := floatCell (p.getD 14 "")
    partners := jsonListCell (p.getD 15 "")
    total_revenue := floatCell (p.getD 16 "")
    total_cost := floatCell (p.getD 17 "")
    profit := floatCell (p.getD 18 "")
    total_collection := floatCell (p.getD 19 "")
    created_at := p.getD 20 ""
    updated_at := p.getD 21 "" }

/-- Blank-row test (line 156): a row is non-blank when some cell is a
non-empty string. -/
def isNonBlank (row : List String) : Bool := row.any (fun c => c ≠ "")

/-- Outcome of a whole-collection read. -/
inductive LoadResult where
  | schemaMismatch
  | loaded (orders : List Order)

/-- Decoded records an outcome carries; the header-mismatch path hands the
caller an empty list (line 149). -/
def LoadResult.records : LoadResult → List Order
  | .schemaMismatch => []
  | .loaded l => l

/-- Grid processing of `load_data_from_feishu` (lines 123-195): an empty
grid loads nothing; a first row differing from `EXPECTED_COLS` aborts with
the schema mismatch before touching any data row; otherwise every
non-blank data row decodes through `decodeRow`.  The trailing
`order_dict.get('id') is not None` test always passes because the id
column is always assigned.  Credentials and transport are modelled at the
call sites that involve them. -/
def loadDataFromFeishu (data : List (List String)) : LoadResult :=
  match data with
  | [] => .loaded []
  | headerRow :: dataRows =>
    if headerRow ≠ EXPECTED_COLS then .schemaMismatch
    else .loaded ((dataRows.filter isNonBlank).map decodeRow)

/-- Well-formedness for the round trip: every decimal field has a finite
decimal expansion and every JSON column is well-formed. -/
def wfOrder (o : Order) : Bool :=
  isDecimal o.deposit_amount && isDecimal o.final_payment_amount &&
  isDecimal o.total_payment_amount && isDecimal o.adult_price &&
  isDecimal o.child_price && isDecimal o.total_pax_price &&
  isDecimal o.total_revenue && isDecimal o.total_cost &&
  isDecimal o.profit && isDecimal o.total_collection &&
  wfArr o.payment_methods && wfArr o.lines && wfArr o.partners

/-! ### Codec round trip -/

theorem intChars_ne_nil (i : Int) : intChars i ≠ [] := by
  unfold intChars
  by_cases hn : i < 0
  · simp [hn]
  · simp only [hn, if_false]
    exact natChars_ne_nil _

theorem pyFloatChars_ne_nil (q : ℚ) : pyFloatChars q ≠ [] := by
  unfold pyFloatChars
  by_cases hq : q < 0
  · simp [hq]
  · simp only [hq, if_false]
    show natChars _ ++ '.' :: fracChars _ _ ≠ []
    simp

theorem stringMk_ne_empty {cs : List Char} (h : cs ≠ []) : String.mk cs ≠ "" := by
  intro heq
  exact h (congrArg String.data heq)

theorem intCell_intChars (i : Int) : intCell (String.mk (intChars i)) = i := by
  unfold intCell
  rw [if_neg (stringMk_ne_empty (intChars_ne_nil i))]
  show (match parsePyFloat (intChars i) with
    | some q => pyTrunc q
    | none => 0) = i
  rw [parsePyFloat_intChars]
  exact pyTrunc_intCast i

theorem floatCell_pyFloatChars {q : ℚ} (hq : isDecimal q = true) :
    floatCell (String.mk (pyFloatChars q)) = q := by
  unfold floatCell
  rw [if_neg (stringMk_ne_empty (pyFloatChars_ne_nil q))]
  show (match parsePyFloat (pyFloatChars q) with
    | some x => x
    | none => 0) = q
  rw [parsePyFloat_pyFloatChars hq]

theorem jsonListCell_dump {l : List Json} (hl : wfArr l = true) :
    jsonListCell (String.mk (dumpJson (.arr l))) = l := by
  unfold jsonListCell safeJsonLoads
  have hdump : dumpJson (.arr l) = '[' :: (dumpArr l ++ [']']) := rfl
  have hws : ((String.mk (dumpJson (.arr l))).data.all (fun c => c.isWhitespace)) = false := by
    show ((dumpJson (.arr l)).all (fun c => c.isWhitespace)) = false
    rw [hdump]
    simp
  have hnan : isNanStr (String.mk (dumpJson (.arr l))) = false := by
    show ((dumpJson (.arr l)).map Char.toLower == ['n', 'a', 'n']) = false
    rw [hdump]
    simp
  rw [hws, hnan]
  simp only [Bool.false_eq_true, if_false]
  have hload : jsonLoads (String.mk (dumpJson (.arr l))).data = some (.arr l) :=
    jsonLoads_dump hl
  rw [hload]

theorem padRow_full {row : List String} (h : row.length = EXPECTED_COLS.length) :
    padRow row = row := by
  unfold padRow
  rw [h]
  simp

theorem decodeRow_encodeOrder {o : Order} (hwf : wfOrder o = true) :
    decodeRow (encodeOrder o) = o := by
  have hlen : (encodeOrder o).length = EXPECTED_COLS.length := rfl
  have hpad : padRow (encodeOrder o) = encodeOrder o := padRow_full hlen
  have hw := hwf
  unfold wfOrder at hw
  simp only [Bool.and_eq_true] at hw
  obtain ⟨⟨⟨⟨⟨⟨⟨⟨⟨⟨⟨⟨h1, h2⟩, h3⟩, h4⟩, h5⟩, h6⟩, h7⟩, h8⟩, h9⟩, h10⟩, hpm⟩, hln⟩, hpt⟩ := hw
  show decodeRow (encodeOrder o) = o
  unfold decodeRow
  rw [hpad]
  show Order.mk
      (intCell (String.mk (intChars o.id)))
      o.customer_name o.customer_phone o.departure_date o.customer_notes
      (jsonListCell (String.mk (dumpJson (.arr o.payment_methods))))
      (floatCell (String.mk (pyFloatChars o.deposit_amount)))
      (floatCell (String.mk (pyFloatChars o.final_payment_amount)))
      (floatCell (String.mk (pyFloatChars o.total_payment_amount)))
      (jsonListCell (String.mk (dumpJson (.arr o.lines))))
      (intCell (String.mk (intChars o.adult_count)))
      (intCell (String.mk (intChars o.child_count)))
      (floatCell (String.mk (pyFloatChars o.adult_price)))
      (floatCell (String.mk (pyFloatChars o.child_price)))
      (floatCell (String.mk (pyFloatChars o.total_pax_price)))
      (jsonListCell (String.mk (dumpJson (.arr o.partners))))
      (floatCell (String.mk (pyFloatChars o.total_revenue)))
      (floatCell (String.mk (pyFloatChars o.total_cost)))
      (floatCell (String.mk (pyFloatChars o.profit)))
      (floatCell (String.mk (pyFloatChars o.total_collection)))
      o.created_at o.updated_at = o
  rw [intCell_intChars, intCell_intChars, intCell_intChars,
    floatCell_pyFloatChars h1, floatCell_pyFloatChars h2, floatCell_pyFloatChars h3,
    floatCell_pyFloatChars h4, floatCell_pyFloatChars h5, floatCell_pyFloatChars h6,
    floatCell_pyFloatChars h7, floatCell_pyFloatChars h8, floatCell_pyFloatChars h9,
    floatCell_pyFloatChars h10,
    jsonListCell_dump hpm, jsonListCell_dump hln, jsonListCell_dump hpt]

/-! ## Derived-field calculators (travel.py lines 368-397) -/

/-- `calculate_pax_price` (lines 368-373); counts and prices are numeric in
the typed model, so the `pd.notna` guards are identities. -/
def calculatePaxPrice (adult_count : Int) (adult_price : ℚ) (child_count : Int)
    (child_price : ℚ) : ℚ :=
  (adult_count : ℚ) * adult_price + (child_count : ℚ) * child_price

/-- `calculate_received_payment` (lines 375-378). -/
def calculateReceivedPayment (deposit final_payment : ℚ) : ℚ :=
  deposit + final_payment

/-- Lookup of a key among a JSON object's fields (Python `dict.get`; the
dicts this program builds have unique keys, so the first match decides). -/
def objGet : List (String × Json) → String → Option Json
  | [], _ => none
  | f :: fs, k => if f.1 = k then some f.2 else objGet fs k

/-- The name `p.get('name', '')` yields.  A non-string name would raise
uncaught `.strip()` in the source, so claims about partner folds carry a
hypothesis excluding that shape; the model returns `""` there. -/
def partnerNameStr (p : Json) : String :=
  match p with
  | .obj fs =>
    match objGet fs "name" with
    | some (.str s) => s
    | some _ => ""
    | none => ""
  | _ => ""

/-- Truthiness of Python `s.strip()`: some character is not whitespace. -/
def stripNonEmpty (s : String) : Bool := s.data.any (fun c => !c.isWhitespace)

/-- `float(x) if pd.notna(x) else 0.0` under `except (ValueError,
TypeError)` adding 0 (lines 386-395): numbers pass through, booleans map
to 0/1, `None` is caught by `notna`, numeric strings parse, and every
failing shape contributes 0. -/
def coerceFloat (v : Json) : ℚ :=
  match v with
  | .jfloat q => q
  | .jint n => (n : ℚ)
  | .jbool b => if b then 1 else 0
  | .jnull => 0
  | .str s => (parsePyFloat s.data).getD 0
  | .arr _ => 0
  | .obj _ => 0

/-- Whether `calculate_partner_totals` counts an entry:
`isinstance(p, dict) and p.get('name', '').strip()` (line 384). -/
def partnerCounted (p : Json) : Bool :=
  match p with
  | .obj _ => stripNonEmpty (partnerNameStr p)
  | _ => false

/-- `p.get(k, 0.0)` coerced to a float. -/
def partnerField (p : Json) (k : String) : ℚ :=
  match p with
  | .obj fs =>
    match objGet fs k with
    | some v => coerceFloat v
    | none => 0
  | _ => 0

/-- `calculate_partner_totals` (lines 380-397): fold over the entries,
accumulating coerced settlement and collection of every counted partner. -/
def calculatePartnerTotals (partners : List Json) : ℚ × ℚ :=
  partners.foldl
    (fun acc p =>
      if partnerCounted p then
        (acc.1 + partnerField p "settlement", acc.2 + partnerField p "collection")
      else acc)
    (0, 0)

/-! ## Partner sanitization in the save handlers (lines 667-675) -/

/-- Dict copy minus a key (`partner_data.pop('id', None)` after `.copy()`);
keys are unique in the dicts this program builds, so a filter models it. -/
def popKey (fs : List (String × Json)) (k : String) : List (String × Json) :=
  fs.filter (fun f => f.1 ≠ k)

/-- Dict assignment `d[k] = v`: in-place update when the key exists
(insertion order preserved), append otherwise. -/
def setKey (fs : List (String × Json)) (k : String) (v : Json) : List (String × Json) :=
  if fs.any (fun f => f.1 = k) then fs.map (fun f => if f.1 = k then (k, v) else f)
  else fs ++ [(k, v)]

/-- `final_partners_data` construction (lines 667-675, repeated at
1006-1014): keep dict entries whose name is non-blank after stripping,
drop the transient UI `id`, and coerce settlement and collection to
floats (0.0 on failure). -/
def finalPartnersData (partners : List Json) : List Json :=
  partners.filterMap (fun p =>
    match p with
    | .obj fs =>
      if stripNonEmpty (partnerNameStr (.obj fs)) then
        let fs1 := popKey fs "id"
        let fs2 := setKey fs1 "settlement" (.jfloat (partnerField (.obj fs1) "settlement"))
        let fs3 := setKey fs2 "collection" (.jfloat (partnerField (.obj fs2) "collection"))
        some (.obj fs3)
      else none
    | _ => none)

/-! ## Token manager (travel.py lines 34-79) -/

/-- Process-wide cached credential state (`_tenant_access_token`,
`_token_expires_at`). -/
structure TokenCache where
  token : Option String
  expiresAt : Int
deriving DecidableEq

/-- Truthiness of the cached token value. -/
def tokenTruthy : Option String → Bool
  | none => false
  | some s => s ≠ ""

/-- Outcome of one credential-exchange call. -/
inductive ExchangeOutcome where
  | success (tok : String) (expireIn : Int)
  | apiError (msg : String)
  | timeout
  | netError (msg : String)

/-- `get_feishu_tenant_token` (lines 39-79), with the clock and the network
outcome passed explicitly.  Within the 300-unit safety margin the cached
token is returned without an exchange.  On success the cache holds the new
token until `now + expire`.  A non-zero body code clears the cache (lines
65-66); a timeout or transport exception returns `None` and leaves the
cached state untouched (lines 68-79). -/
def getFeishuTenantToken (cache : TokenCache) (now : Int) (res : ExchangeOutcome) :
    Option String × TokenCache :=
  if tokenTruthy cache.token = true ∧ now < cache.expiresAt - 300 then
    (cache.token, cache)
  else
    match res with
    | .success tok expireIn => (some tok, ⟨some tok, now + expireIn⟩)
    | .apiError _ => (none, ⟨none, 0⟩)
    | .timeout => (none, cache)
    | .netError _ => (none, cache)

/-! ## Remote persistence (travel.py lines 214-320) -/

/-- Requests `save_data_to_feishu` issues, in order. -/
inductive FeishuAction where
  | clearReq
  | writeReq (numRows : Nat) (values : List (List String))
deriving DecidableEq

/-- Outcome of the clear call (lines 282-292): a failure reported in the
response (HTTP status or body code) is tolerated; a raised exception
(timeout or transport error) jumps to the handlers at lines 308-320. -/
inductive ClearOutcome where
  | ok
  | badStatus
  | raised
deriving DecidableEq

/-- Outcome of the write call (lines 294-307). -/
inductive WriteOutcome where
  | ok
  | badCode
  | raised
deriving DecidableEq

/-- Ascending-by-id ordering used by `sorted(orders_list, key=...)`. -/
def rById (a b : Order) : Prop := a.id ≤ b.id

instance : DecidableRel rById := fun a b => Int.decLe a.id b.id

instance : IsTotal Order rById := ⟨fun a b => Int.le_total a.id b.id⟩

instance : IsTrans Order rById := ⟨fun _ _ _ h1 h2 => le_trans h1 h2⟩

/-- `sorted(orders_list, key=lambda x: x.get('id', 0))` (line 230): a sort
ascending by id.  Python's sort is stable; on the duplicate-free id lists
this program produces, every sort ascending by id yields the same list. -/
def pySortedById (orders : List Order) : List Order := List.insertionSort rById orders

/-- `save_data_to_feishu` (lines 214-320), as the issued request sequence
plus the returned success flag.  `values_to_write` is the header plus one
encoded row per order, sorted ascending by id; the write range spans
exactly `len(values_to_write)` rows (lines 259-260).  With no token
nothing is issued (lines 216-219); a raised clear aborts before the write;
a response-level clear failure only logs a warning and the write still
goes out (lines 287-296). -/
def saveDataToFeishu (orders : List Order) (tokenOk : Bool)
    (clearRes : ClearOutcome) (writeRes : WriteOutcome) :
    Bool × List FeishuAction :=
  if tokenOk = false then (false, [])
  else
    let values := EXPECTED_COLS :: (pySortedById orders).map encodeOrder
    match clearRes with
    | .raised => (false, [.clearReq])
    | _ =>
      match writeRes with
      | .ok => (true, [.clearReq, .writeReq values.length values])
      | .badCode => (false, [.clearReq, .writeReq values.length values])
      | .raised => (false, [.clearReq, .writeReq values.length values])

/-! ## The record store (session-state handlers) -/

/-- In-memory store state: `st.session_state.orders` and
`st.session_state.order_id_counter`. -/
structure AppState where
  orders : List Order
  counter : Int

/-- Ids the save handler counts when reconciling the counter (line 684):
entries whose `str()` form `isdigit()`, i.e. the non-negative ids of the
typed model. -/
def currentIds (orders : List Order) : List Int :=
  (orders.map Order.id).filter (fun i => 0 ≤ i)

/-- `max(current_ids) if current_ids else 0` (line 685). -/
def maxCurrentId (orders : List Order) : Int :=
  (currentIds orders).foldr max 0

/-- Data of the new-order form feeding `save_new_order` (lines 639-653).
The departure date is kept in its formatted `YYYY-MM-DD` form. -/
structure Draft where
  customerName : String
  customerPhone : String
  departureDate : Option String
  customerNotes : String
  paymentMethods : List Json
  deposit : ℚ
  finalPayment : ℚ
  totalPayment : ℚ
  linesText : String
  adultCount : Int
  childCount : Int
  adultPrice : ℚ
  childPrice : ℚ
  partners : List Json

/-- Validation of the new-order form (lines 656-660): name, phone and date
must be present and the contracted total strictly positive. -/
def draftValid (d : Draft) : Bool :=
  d.customerName ≠ "" && d.customerPhone ≠ "" && d.departureDate.isSome &&
    decide (0 < d.totalPayment)

/-- Python `line.split('\n')` over characters. -/
def splitLinesAux : List Char → List Char → List (List Char)
  | [], acc => [acc.reverse]
  | c :: cs, acc =>
    if c = '\n' then acc.reverse :: splitLinesAux cs [] else splitLinesAux cs (c :: acc)

/-- Python `s.strip()`. -/
def pyStrip (cs : List Char) : List Char :=
  ((cs.dropWhile (fun c => c.isWhitespace)).reverse.dropWhile
    (fun c => c.isWhitespace)).reverse

/-- `[line.strip() for line in lines_text.split('\n') if line.strip()]`
(line 676). -/
def linesList (text : String) : List String :=
  ((splitLinesAux text.data []).map (fun l => String.mk (pyStrip l))).filter
    (fun s => s ≠ "")

/-- The save path of `save_new_order` (lines 636-744) with the backend
outcome passed as a flag and the configuration present (the deployed
app).  Validation failures mutate nothing.  Otherwise: sanitize partners,
compute derived fields, reconcile the id counter against the collection
(line 686), append the new order, persist the whole collection; on success
advance the counter (line 731) and report the created id, on failure pop
the appended order (line 742) and leave the counter where the
reconciliation put it. -/
def createOrder (st : AppState) (d : Draft) (nowStr : String) (backendOk : Bool) :
    AppState × Option Int :=
  if draftValid d = false then (st, none)
  else
    let partnersData := finalPartnersData d.partners
    let linesL := linesList d.linesText
    let paxPrice := calculatePaxPrice d.adultCount d.adultPrice d.childCount d.childPrice
    let totals := calculatePartnerTotals partnersData
    let counter1 := max st.counter (maxCurrentId st.orders + 1)
    let newOrder : Order :=
      { id := counter1
        customer_name := d.customerName
        customer_phone := d.customerPhone
        departure_date := d.departureDate.getD ""
        customer_notes := d.customerNotes
        payment_methods := d.paymentMethods
        deposit_amount := d.deposit
        final_payment_amount := d.finalPayment
        total_payment_amount := d.totalPayment
        lines := linesL.map Json.str
        adult_count := d.adultCount
        child_count := d.childCount
        adult_price := d.adultPrice
        child_price := d.childPrice
        total_pax_price := paxPrice
        partners := partnersData
        total_revenue := d.totalPayment
        total_cost := totals.1
        profit := d.totalPayment - totals.1
        total_collection := totals.2
        created_at := nowStr
        updated_at := "" }
    let appended := st.orders ++ [newOrder]
    if backendOk then ({ orders := appended, counter := counter1 + 1 }, some counter1)
    else ({ orders := appended.dropLast, counter := counter1 }, none)

instance : Inhabited Order :=
  ⟨⟨0, "", "", "", "", [], 0, 0, 0, [], 0, 0, 0, 0, 0, [], 0, 0, 0, 0, "", ""⟩⟩

/-- `next((i for i, order in enumerate(orders) if order.get('id') ==
selected), None)` (line 894). -/
def findOrderIdx : List Order → Int → Nat → Option Nat
  | [], _, _ => none
  | o :: os, targetId, i =>
    if o.id = targetId then some i else findOrderIdx os targetId (i + 1)

/-- The delete path (lines 1084-1127) with the backend outcome passed as a
flag: pop the record at the id's index, persist the remaining collection;
on failure re-insert the removed record at its original position (line
1126).  The counter is untouched either way. -/
def deleteOrder (st : AppState) (targetId : Int) (backendOk : Bool) :
    AppState × Bool :=
  match findOrderIdx st.orders targetId 0 with
  | none => (st, false)
  | some i =>
    let removed := st.orders.getD i default
    let remaining := st.orders.eraseIdx i
    if backendOk then ({ st with orders := remaining }, true)
    else ({ st with orders := remaining.insertIdx i removed }, false)

/-! ### Store lemmas -/

theorem foldr_max_le {l : List Int} {B : Int} (h0 : 0 ≤ B) (h : ∀ x ∈ l, x ≤ B) :
    l.foldr max 0 ≤ B := by
  induction l with
  | nil => simpa using h0
  | cons x xs ih =>
    simp only [List.foldr_cons]
    exact max_le (h x (by simp)) (ih (fun y hy => h y (by simp [hy])))

theorem maxCurrentId_succ_le {orders : List Order} {c : Int} (h1 : 1 ≤ c)
    (h2 : ∀ o ∈ orders, o.id < c) : maxCurrentId orders + 1 ≤ c := by
  unfold maxCurrentId
  have hb : (currentIds orders).foldr max 0 ≤ c - 1 := by
    apply foldr_max_le (by omega)
    intro x hx
    unfold currentIds at hx
    rw [List.mem_filter] at hx
    obtain ⟨hx1, _⟩ := hx
    rw [List.mem_map] at hx1
    obtain ⟨o, ho, rfl⟩ := hx1
    have := h2 o ho
    omega
  omega

theorem createOrder_fail_eq (st : AppState) (d : Draft) (nowStr : String)
    (h1 : 1 ≤ st.counter) (h2 : ∀ o ∈ st.orders, o.id < st.counter) :
    createOrder st d nowStr false = (st, none) := by
  unfold createOrder
  by_cases hv : draftValid d = false
  · simp [hv]
  · have hv2 : draftValid d = true := by
      revert hv
      cases draftValid d <;> simp
    simp only [hv2, Bool.true_eq_false, if_false, Bool.false_eq_true]
    rw [List.dropLast_concat]
    have hc : max st.counter (maxCurrentId st.orders + 1) = st.counter :=
      max_eq_left (maxCurrentId_succ_le h1 h2)
    rw [hc]

theorem insertIdx_eraseIdx_getD :
    ∀ (l : List Order) (i : Nat), i < l.length →
      (l.eraseIdx i).insertIdx i (l.getD i default) = l := by
  intro l
  induction l with
  | nil => intro i h; simp at h
  | cons x xs ih =>
    intro i h
    cases i with
    | zero => rfl
    | succ j =>
      have hj : j < xs.length := by
        simp at h
        omega
      show ((x :: xs).eraseIdx (j + 1)).insertIdx (j + 1) (xs.getD j default) = x :: xs
      rw [show (x :: xs).eraseIdx (j + 1) = x :: xs.eraseIdx j from rfl,
        List.insertIdx_succ_cons, ih j hj]

theorem findOrderIdx_bound :
    ∀ (l : List Order) (t : Int) (s i : Nat), findOrderIdx l t s = some i →
      s ≤ i ∧ i - s < l.length := by
  intro l
  induction l with
  | nil => intro t s i h; simp [findOrderIdx] at h
  | cons o os ih =>
    intro t s i h
    unfold findOrderIdx at h
    by_cases heq : o.id = t
    · simp only [heq, if_true] at h
      injection h with h
      subst h
      simp
    · simp only [heq, if_false] at h
      obtain ⟨ha, hb⟩ := ih t (s + 1) i h
      constructor
      · omega
      · simp only [List.length_cons]
        omega

theorem findOrderIdx_exists :
    ∀ (l : List Order) (t : Int) (s : Nat), (∃ o ∈ l, o.id = t) →
      ∃ i, findOrderIdx l t s = some i := by
  intro l
  induction l with
  | nil => intro t s h; simp at h
  | cons o os ih =>
    intro t s h
    by_cases heq : o.id = t
    · exact ⟨s, by simp [findOrderIdx, heq]⟩
    · obtain ⟨o2, ho2, hid⟩ := h
      rcases List.mem_cons.mp ho2 with rfl | ho3
      · exact absurd hid heq
      · obtain ⟨i, hi⟩ := ih t (s + 1) ⟨o2, ho3, hid⟩
        exact ⟨i, by simp [findOrderIdx, heq, hi]⟩

theorem deleteOrder_fail_eq (st : AppState) (t : Int)
    (h : ∃ o ∈ st.orders, o.id = t) :
    deleteOrder st t false = (st, false) := by
  obtain ⟨i, hi⟩ := findOrderIdx_exists st.orders t 0 h
  have hib := findOrderIdx_bound st.orders t 0 i hi
  unfold deleteOrder
  rw [hi]
  simp only [Bool.false_eq_true, if_false]
  have hres : (st.orders.eraseIdx i).insertIdx i (st.orders.getD i default) = st.orders :=
    insertIdx_eraseIdx_getD st.orders i (by omega)
  rw [hres]

/-- Index search over bare ids, mirroring `findOrderIdx`. -/
def intFindIdx : List Int → Int → Nat → Option Nat
  | [], _, _ => none
  | x :: xs, t, i => if x = t then some i else intFindIdx xs t (i + 1)

theorem findOrderIdx_map_id :
    ∀ (l : List Order) (t : Int) (s : Nat),
      findOrderIdx l t s = intFindIdx (l.map Order.id) t s := by
  intro l
  induction l with
  | nil => intro t s; rfl
  | cons o os ih =>
    intro t s
    unfold findOrderIdx
    simp only [List.map_cons, intFindIdx]
    by_cases heq : o.id = t
    · simp [heq]
    · simp [heq, ih]

theorem map_id_eraseIdx (l : List Order) (i : Nat) :
    (l.eraseIdx i).map Order.id = (l.map Order.id).eraseIdx i := by
  induction l generalizing i with
  | nil => simp
  | cons x xs ih =>
    cases i with
    | zero => rfl
    | succ j =>
      show (x :: xs.eraseIdx j).map Order.id = (x.id :: (xs.map Order.id).eraseIdx j)
      simp [ih]

theorem createOrder_success_parts (st : AppState) (d : Draft) (n : String)
    (hv : draftValid d = true) :
    (createOrder st d n true).2 = some (max st.counter (maxCurrentId st.orders + 1)) ∧
    (createOrder st d n true).1.counter = max st.counter (maxCurrentId st.orders + 1) + 1 ∧
    (createOrder st d n true).1.orders.map Order.id =
      st.orders.map Order.id ++ [max st.counter (maxCurrentId st.orders + 1)] := by
  unfold createOrder
  simp [hv]

theorem deleteOrder_counter (st : AppState) (t : Int) (b : Bool) :
    (deleteOrder st t b).1.counter = st.counter := by
  unfold deleteOrder
  cases hfind : findOrderIdx st.orders t 0 with
  | none => rfl
  | some i => cases b <;> rfl

theorem deleteOrder_ids (st : AppState) (t : Int) {i : Nat}
    (hfind : findOrderIdx st.orders t 0 = some i) :
    (deleteOrder st t true).1.orders.map Order.id =
      (st.orders.map Order.id).eraseIdx i := by
  unfold deleteOrder
  rw [hfind]
  simp only [if_true]
  exact map_id_eraseIdx st.orders i

theorem maxCurrentId_of_map {orders : List Order} {ids : List Int}
    (h : orders.map Order.id = ids) :
    maxCurrentId orders = (ids.filter (fun i => 0 ≤ i)).foldr max 0 := by
  unfold maxCurrentId currentIds
  rw [h]

/-! ### Partner-fold and key lemmas -/

theorem partnerTotals_fold (ps : List Json) :
    ∀ a b : ℚ,
      ps.foldl
        (fun acc p =>
          if partnerCounted p then
            (acc.1 + partnerField p "settlement", acc.2 + partnerField p "collection")
          else acc)
        (a, b) =
      (a + ((ps.filter partnerCounted).map (fun p => partnerField p "settlement")).sum,
       b + ((ps.filter partnerCounted).map (fun p => partnerField p "collection")).sum) := by
  induction ps with
  | nil => intro a b; simp
  | cons p ps ih =>
    intro a b
    by_cases hp : partnerCounted p = true
    · simp only [List.foldl_cons, hp, if_true, List.filter_cons_of_pos, List.map_cons,
        List.sum_cons, ih]
      rw [Prod.mk.injEq]
      constructor <;> ring
    · simp only [List.foldl_cons, hp, Bool.false_eq_true, if_false, ih,
        List.filter_cons_of_neg hp]

theorem popKey_cons (f : String × Json) (fs : List (String × Json)) (k : String) :
    popKey (f :: fs) k = if f.1 = k then popKey fs k else f :: popKey fs k := by
  by_cases h : f.1 = k <;> simp [popKey, List.filter_cons, h]

theorem objGet_popKey_self (fs : List (String × Json)) (k : String) :
    objGet (popKey fs k) k = none := by
  induction fs with
  | nil => rfl
  | cons f fs ih =>
    rw [popKey_cons]
    by_cases hf : f.1 = k
    · rw [if_pos hf]
      exact ih
    · rw [if_neg hf]
      show objGet (f :: popKey fs k) k = none
      unfold objGet
      rw [if_neg hf]
      exact ih

theorem objGet_append_none {l1 l2 : List (String × Json)} {k : String}
    (h1 : objGet l1 k = none) (h2 : objGet l2 k = none) :
    objGet (l1 ++ l2) k = none := by
  induction l1 with
  | nil => simpa using h2
  | cons f fs ih =>
    unfold objGet at h1 ⊢
    by_cases hf : f.1 = k
    · simp [hf] at h1
    · rw [List.cons_append]
      show objGet (f :: (fs ++ l2)) k = none
      unfold objGet
      rw [if_neg hf]
      exact ih (by simpa [hf] using h1)

theorem objGet_setKey_none {fs : List (String × Json)} {k k2 : String} {v : Json}
    (hne : k ≠ k2) (h : objGet fs k2 = none) :
    objGet (setKey fs k v) k2 = none := by
  unfold setKey
  by_cases hany : fs.any (fun f => f.1 = k) = true
  · rw [if_pos hany]
    clear hany
    induction fs with
    | nil => rfl
    | cons f fs ih =>
      unfold objGet at h
      by_cases hf : f.1 = k2
      · simp [hf] at h
      · simp only [List.map_cons]
        by_cases hfk : f.1 = k
        · rw [if_pos hfk]
          show objGet ((k, v) :: fs.map _) k2 = none
          unfold objGet
          rw [if_neg hne]
          exact ih (by simpa [hf] using h)
        · rw [if_neg hfk]
          show objGet (f :: fs.map _) k2 = none
          unfold objGet
          rw [if_neg hf]
          exact ih (by simpa [hf] using h)
  · rw [if_neg hany]
    apply objGet_append_none h
    show objGet [(k, v)] k2 = none
    unfold objGet
    rw [if_neg hne]
    rfl

theorem finalPartnersData_no_id (ps : List Json) :
    ∀ p ∈ finalPartnersData ps, ∃ fs, p = .obj fs ∧ objGet fs "id" = none := by
  intro p hp
  unfold finalPartnersData at hp
  rw [List.mem_filterMap] at hp
  obtain ⟨q, _, hqp⟩ := hp
  cases q with
  | obj fs =>
    by_cases hname : stripNonEmpty (partnerNameStr (.obj fs)) = true
    · simp only [hname, if_true] at hqp
      injection hqp with hqp
      refine ⟨_, hqp.symm, ?_⟩
      apply objGet_setKey_none (by decide)
      apply objGet_setKey_none (by decide)
      exact objGet_popKey_self fs "id"
    · simp [hname] at hqp
  | str s => simp at hqp
  | jint n => simp at hqp
  | jfloat q2 => simp at hqp
  | jbool b => simp at hqp
  | jnull => simp at hqp
  | arr l => simp at hqp

/-! ### Sort lemmas -/

instance : IsAntisymm Order (fun a b => a.id < b.id) :=
  ⟨fun _ _ h1 h2 => absurd (lt_trans h1 h2) (lt_irrefl _)⟩

theorem pySortedById_sorted (orders : List Order) :
    ((pySortedById orders).map Order.id).Sorted (· ≤ ·) := by
  have h := List.sorted_insertionSort rById orders
  unfold pySortedById
  rw [List.Sorted, List.pairwise_map]
  exact h

theorem sorted_strict_of_nodup {s : List Order} (hs : s.Sorted rById)
    (hn : (s.map Order.id).Nodup) : s.Sorted (fun a b => a.id < b.id) := by
  have hne : List.Pairwise (fun a b : Order => a.id ≠ b.id) s := List.pairwise_map.mp hn
  exact (List.Pairwise.and hs hne).imp (fun h => lt_of_le_of_ne h.1 h.2)

theorem pySortedById_perm_invariant {l1 l2 : List Order} (hp : l1.Perm l2)
    (hn : (l1.map Order.id).Nodup) : pySortedById l1 = pySortedById l2 := by
  have hs1 := List.sorted_insertionSort rById l1
  have hs2 := List.sorted_insertionSort rById l2
  have hperm1 := List.perm_insertionSort rById l1
  have hperm2 := List.perm_insertionSort rById l2
  have hn2 : (l2.map Order.id).Nodup := ((hp.map Order.id).nodup_iff).mp hn
  have hns1 : ((pySortedById l1).map Order.id).Nodup :=
    ((hperm1.map Order.id).nodup_iff).mpr hn
  have hns2 : ((pySortedById l2).map Order.id).Nodup :=
    ((hperm2.map Order.id).nodup_iff).mpr hn2
  exact @List.eq_of_perm_of_sorted Order (fun a b => a.id < b.id) _ _ _
    (hperm1.trans (hp.trans hperm2.symm))
    (sorted_strict_of_nodup hs1 hns1) (sorted_strict_of_nodup hs2 hns2)

/-- Whether an entry's name field, if any, is a string; a non-string name
makes the source raise in `.strip()`, outside the fold's `try`. -/
def partnerNameOk (p : Json) : Bool :=
  match p with
  | .obj fs =>
    match objGet fs "name" with
    | some (.str _) => true
    | some _ => false
    | none => true
  | _ => true

theorem decodeRow_padRow (row : List String) : decodeRow row = decodeRow (padRow row) := by
  have hidem : padRow (padRow row) = padRow row := by
    unfold padRow
    have hlen : (row ++ List.replicate (EXPECTED_COLS.length - row.length) "").length =
        row.length + (EXPECTED_COLS.length - row.length) := by
      simp
    rw [hlen]
    have hz : EXPECTED_COLS.length - (row.length + (EXPECTED_COLS.length - row.length)) = 0 := by
      omega
    rw [hz]
    simp
  unfold decodeRow
  rw [hidem]

/-! ## Claim theorems -/

/-- C1: for every draft order and every backend whose `replace_all`
persistence call fails, `create(draft)` leaves the in-memory collection
unchanged in length and content (the just-appended order is popped again)
and the id counter unchanged.  The hypotheses are the store's standing
counter invariant (`order_id_counter ≥ 1` and above every stored id),
established at load time (`max(ids) + 1`, or 1 on an empty store) and
preserved by every handler. -/
theorem claim_C1_create_rollback (st : AppState) (d : Draft) (nowStr : String)
    (h1 : 1 ≤ st.counter) (h2 : ∀ o ∈ st.orders, o.id < st.counter) :
    createOrder st d nowStr false = (st, none) :=
  createOrder_fail_eq st d nowStr h1 h2

/-- Valid sample draft for witnesses. -/
def sampleDraft : Draft :=
  { customerName := "Li"
    customerPhone := "123"
    departureDate := some "2025-01-01"
    customerNotes := ""
    paymentMethods := [.str "alipay"]
    deposit := 100
    finalPayment := 0
    totalPayment := 1000
    linesText := "Chengdu"
    adultCount := 2
    childCount := 0
    adultPrice := 300
    childPrice := 0
    partners := [.obj [("id", .jint 0), ("name", .str "Bob"), ("settlement", .jfloat 200),
      ("collection", .jfloat 0), ("notes", .str "")]] }

theorem claim_C1_witness :
    (1 ≤ (⟨[], 1⟩ : AppState).counter) ∧
    (∀ o ∈ (⟨[], 1⟩ : AppState).orders, o.id < (⟨[], 1⟩ : AppState).counter) ∧
    createOrder ⟨[], 1⟩ sampleDraft "2025-01-01 10:00:00" false = (⟨[], 1⟩, none) :=
  ⟨by decide, by simp,
    claim_C1_create_rollback ⟨[], 1⟩ sampleDraft "2025-01-01 10:00:00" (by decide) (by simp)⟩

/-- C2: for every order with well-formed fields, decoding the encoded row
against the expected header reproduces the record exactly; and the
transient partner UI identifier is dropped before persistence — every
partner dict the save handlers hand to the encoder lacks the `id` key. -/
theorem claim_C2_roundtrip :
    (∀ o : Order, wfOrder o = true → decodeRow (encodeOrder o) = o) ∧
    (∀ ps : List Json, ∀ p ∈ finalPartnersData ps,
      ∃ fs, p = .obj fs ∧ objGet fs "id" = none) :=
  ⟨fun _ hwf => decodeRow_encodeOrder hwf, fun ps => finalPartnersData_no_id ps⟩

/-- Well-formed sample order for witnesses. -/
def sampleOrder : Order :=
  { id := 7
    customer_name := "Li"
    customer_phone := "123"
    departure_date := "2025-01-01"
    customer_notes := "note"
    payment_methods := [.str "alipay"]
    deposit_amount := 100
    final_payment_amount := 0
    total_payment_amount := 1000
    lines := [.str "Chengdu", .str "Leshan"]
    adult_count := 2
    child_count := 1
    adult_price := 601/2
    child_price := 150
    total_pax_price := 751
    partners := [.obj [("name", .str "Bob"), ("settlement", .jfloat 200),
      ("collection", .jfloat 0), ("notes", .str "")]]
    total_revenue := 1000
    total_cost := 200
    profit := 800
    total_collection := 0
    created_at := "2025-01-01 10:00:00"
    updated_at := "" }

attribute [local semireducible] Rat.add Rat.mul Rat.inv Rat.sub in
theorem claim_C2_witness :
    wfOrder sampleOrder = true ∧ decodeRow (encodeOrder sampleOrder) = sampleOrder :=
  ⟨by decide, claim_C2_roundtrip.1 sampleOrder (by decide)⟩

/-- C3: every collection read whose first row differs from
`EXPECTED_COLS` in any way fails with the schema mismatch and yields zero
decoded records; no data row is interpreted. -/
theorem claim_C3_header_guard (header : List String) (rows : List (List String))
    (h : header ≠ EXPECTED_COLS) :
    loadDataFromFeishu (header :: rows) = .schemaMismatch ∧
    (loadDataFromFeishu (header :: rows)).records = [] := by
  simp only [loadDataFromFeishu]
  rw [if_pos h]
  exact ⟨rfl, rfl⟩

theorem claim_C3_witness :
    ("customer_name" :: "id" :: EXPECTED_COLS.drop 2 ≠ EXPECTED_COLS) ∧
    loadDataFromFeishu (("customer_name" :: "id" :: EXPECTED_COLS.drop 2) ::
      [["3", "Li"]]) = .schemaMismatch :=
  ⟨by decide,
    (claim_C3_header_guard ("customer_name" :: "id" :: EXPECTED_COLS.drop 2)
      [["3", "Li"]] (by decide)).1⟩

/-- C4 counterexample: with a stale cached credential, a timeout during
the exchange returns no token but leaves the cached `{token, expires_at}`
state exactly as it was, instead of clearing it as the claim demands. -/
theorem claim_C4_counterexample :
    (getFeishuTenantToken ⟨some "tok", 1000⟩ 5000 .timeout).1 = none ∧
    (getFeishuTenantToken ⟨some "tok", 1000⟩ 5000 .timeout).2 = ⟨some "tok", 1000⟩ ∧
    (⟨some "tok", 1000⟩ : TokenCache) ≠ ⟨none, 0⟩ :=
  ⟨rfl, rfl, by decide⟩

/-- C4 amended: when the cache cannot satisfy the call, a non-zero status
code in the response body clears the cached credential state and fails; a
transport failure or timeout also fails with no token, but leaves the
cached state unchanged. -/
theorem claim_C4_amended (cache : TokenCache) (now : Int) (msg : String)
    (hmiss : ¬(tokenTruthy cache.token = true ∧ now < cache.expiresAt - 300)) :
    getFeishuTenantToken cache now (.apiError msg) = (none, ⟨none, 0⟩) ∧
    getFeishuTenantToken cache now .timeout = (none, cache) ∧
    getFeishuTenantToken cache now (.netError msg) = (none, cache) := by
  unfold getFeishuTenantToken
  simp [if_neg hmiss]

theorem claim_C4_witness :
    (¬(tokenTruthy (⟨none, 0⟩ : TokenCache).token = true ∧
        (100 : Int) < (⟨none, 0⟩ : TokenCache).expiresAt - 300)) ∧
    getFeishuTenantToken ⟨none, 0⟩ 100 (.apiError "bad app id") = (none, ⟨none, 0⟩) :=
  ⟨by decide, (claim_C4_amended ⟨none, 0⟩ 100 "bad app id" (by decide)).1⟩

/-- C5 counterexample: a transport exception during the best-effort clear
aborts the whole `replace_all`: only the clear request is issued, the
write never goes out, and the save reports failure — so a clear failure
can abort the operation, contrary to the claim. -/
theorem claim_C5_counterexample :
    saveDataToFeishu [] true ClearOutcome.raised WriteOutcome.ok =
      (false, [FeishuAction.clearReq]) := rfl

/-- As long as the clear step does not raise, `replace_all` issues the
clear followed by one write of the header plus the sorted encoded rows,
sized to the block's row count, whatever the responses report. -/
theorem saveDataToFeishu_actions (orders : List Order) (clearRes : ClearOutcome)
    (writeRes : WriteOutcome) (hclear : clearRes ≠ .raised) :
    (saveDataToFeishu orders true clearRes writeRes).2 =
      [.clearReq,
       .writeReq (EXPECTED_COLS :: (pySortedById orders).map encodeOrder).length
         (EXPECTED_COLS :: (pySortedById orders).map encodeOrder)] := by
  unfold saveDataToFeishu
  cases clearRes with
  | raised => exact absurd rfl hclear
  | ok => cases writeRes <;> rfl
  | badStatus => cases writeRes <;> rfl

/-- C5 amended: `replace_all` first issues the clear of all rows beyond
the header; a clear failure reported in the response (HTTP status or body
code) is only logged and the subsequent write of the full
`[header] + rows` block, sized exactly to the row count being written,
still proceeds; only a raised transport error or timeout during the clear
aborts the save. -/
theorem claim_C5_amended (orders : List Order) (clearRes : ClearOutcome)
    (writeRes : WriteOutcome) (hclear : clearRes ≠ .raised) :
    (saveDataToFeishu orders true clearRes writeRes).2 =
      [.clearReq,
       .writeReq (EXPECTED_COLS :: (pySortedById orders).map encodeOrder).length
         (EXPECTED_COLS :: (pySortedById orders).map encodeOrder)] :=
  saveDataToFeishu_actions orders clearRes writeRes hclear

theorem claim_C5_witness :
    (ClearOutcome.badStatus ≠ ClearOutcome.raised) ∧
    (saveDataToFeishu [] true ClearOutcome.badStatus WriteOutcome.ok).2 =
      [.clearReq,
       .writeReq (EXPECTED_COLS :: (pySortedById []).map encodeOrder).length
         (EXPECTED_COLS :: (pySortedById []).map encodeOrder)] :=
  ⟨by decide, claim_C5_amended [] ClearOutcome.badStatus WriteOutcome.ok (by decide)⟩

/-- C6: for every collection containing an order with the given id and a
backend whose `replace_all` fails, `delete(id)` leaves the whole store
unchanged: the removed record is reinserted at its original index with
identical field values. -/
theorem claim_C6_delete_rollback (st : AppState) (targetId : Int)
    (h : ∃ o ∈ st.orders, o.id = targetId) :
    deleteOrder st targetId false = (st, false) :=
  deleteOrder_fail_eq st targetId h

theorem claim_C6_witness :
    (∃ o ∈ (⟨[sampleOrder], 8⟩ : AppState).orders, o.id = 7) ∧
    deleteOrder ⟨[sampleOrder], 8⟩ 7 false = (⟨[sampleOrder], 8⟩, false) :=
  ⟨⟨sampleOrder, by simp, rfl⟩,
    claim_C6_delete_rollback ⟨[sampleOrder], 8⟩ 7 ⟨sampleOrder, by simp, rfl⟩⟩

/-- C7: starting from the fresh store (empty collection, counter 1), three
successful creates assign ids 1, 2, 3; deleting the order with id 2 and
creating once more assigns id 4, never reusing 2: ids are monotone and
never reused after deletion within a session. -/
theorem claim_C7_ids_monotonic (d1 d2 d3 d4 : Draft) (n1 n2 n3 n4 : String)
    (hv1 : draftValid d1 = true) (hv2 : draftValid d2 = true)
    (hv3 : draftValid d3 = true) (hv4 : draftValid d4 = true) :
    (createOrder ⟨[], 1⟩ d1 n1 true).2 = some 1 ∧
    (createOrder (createOrder ⟨[], 1⟩ d1 n1 true).1 d2 n2 true).2 = some 2 ∧
    (createOrder (createOrder (createOrder ⟨[], 1⟩ d1 n1 true).1 d2 n2 true).1
      d3 n3 true).2 = some 3 ∧
    (createOrder (deleteOrder (createOrder (createOrder (createOrder ⟨[], 1⟩
      d1 n1 true).1 d2 n2 true).1 d3 n3 true).1 2 true).1 d4 n4 true).2 = some 4 ∧
    (createOrder (deleteOrder (createOrder (createOrder (createOrder ⟨[], 1⟩
      d1 n1 true).1 d2 n2 true).1 d3 n3 true).1 2 true).1 d4 n4 true).2 ≠ some 2 := by
  set s1 : AppState := (createOrder ⟨[], 1⟩ d1 n1 true).1 with hs1
  set s2 : AppState := (createOrder s1 d2 n2 true).1 with hs2
  set s3 : AppState := (createOrder s2 d3 n3 true).1 with hs3
  set s4 : AppState := (deleteOrder s3 2 true).1 with hs4
  obtain ⟨a1, b1, c1⟩ := createOrder_success_parts ⟨[], 1⟩ d1 n1 hv1
  have a1n : (createOrder (⟨[], 1⟩ : AppState) d1 n1 true).2 = some 1 :=
    a1.trans (by decide)
  have b1n : s1.counter = 2 := by rw [hs1]; exact b1.trans (by decide)
  have c1n : s1.orders.map Order.id = [1] := by rw [hs1]; exact c1.trans (by decide)
  have m1 : maxCurrentId s1.orders = 1 := (maxCurrentId_of_map c1n).trans (by decide)
  obtain ⟨a2, b2, c2⟩ := createOrder_success_parts s1 d2 n2 hv2
  have a2n : (createOrder s1 d2 n2 true).2 = some 2 := by
    rw [a2, b1n, m1]; decide
  have b2n : s2.counter = 3 := by rw [hs2, b2, b1n, m1]; decide
  have c2n : s2.orders.map Order.id = [1, 2] := by
    rw [hs2, c2, c1n, b1n, m1]; decide
  have m2 : maxCurrentId s2.orders = 2 := (maxCurrentId_of_map c2n).trans (by decide)
  obtain ⟨a3, b3, c3⟩ := createOrder_success_parts s2 d3 n3 hv3
  have a3n : (createOrder s2 d3 n3 true).2 = some 3 := by
    rw [a3, b2n, m2]; decide
  have b3n : s3.counter = 4 := by rw [hs3, b3, b2n, m2]; decide
  have c3n : s3.orders.map Order.id = [1, 2, 3] := by
    rw [hs3, c3, c2n, b2n, m2]; decide
  have hfind : findOrderIdx s3.orders 2 0 = some 1 := by
    rw [findOrderIdx_map_id, c3n]; decide
  have c4n : s4.orders.map Order.id = [1, 3] := by
    rw [hs4]
    exact (deleteOrder_ids s3 2 hfind).trans (by rw [c3n]; decide)
  have b4n : s4.counter = 4 := by rw [hs4]; exact (deleteOrder_counter s3 2 true).trans b3n
  have m4 : maxCurrentId s4.orders = 3 := (maxCurrentId_of_map c4n).trans (by decide)
  obtain ⟨a5, _, _⟩ := createOrder_success_parts s4 d4 n4 hv4
  have a5n : (createOrder s4 d4 n4 true).2 = some 4 := by
    rw [a5, b4n, m4]; decide
  exact ⟨a1n, a2n, a3n, a5n, by rw [a5n]; decide⟩

theorem claim_C7_witness :
    draftValid sampleDraft = true ∧
    (createOrder (deleteOrder (createOrder (createOrder (createOrder ⟨[], 1⟩
      sampleDraft "t" true).1 sampleDraft "t" true).1 sampleDraft "t" true).1
      2 true).1 sampleDraft "t" true).2 = some 4 :=
  ⟨by decide,
    (claim_C7_ids_monotonic sampleDraft sampleDraft sampleDraft sampleDraft
      "t" "t" "t" "t" (by decide) (by decide) (by decide) (by decide)).2.2.2.1⟩

/-- C8: on partner entry lists whose name fields (when present) are
strings — any other shape makes the source raise in `.strip()` before the
fold even starts — `calculate_partner_totals` returns exactly the pair of
the settlement sum and the collection sum over the entries that are dicts
with a name that is non-empty after stripping whitespace; moreover an
entry whose name strips to empty is never counted, so it contributes
nothing to either total. -/
theorem claim_C8_partner_totals (ps : List Json)
    (_hn : ∀ p ∈ ps, partnerNameOk p = true) :
    calculatePartnerTotals ps =
      (((ps.filter partnerCounted).map (fun p => partnerField p "settlement")).sum,
       ((ps.filter partnerCounted).map (fun p => partnerField p "collection")).sum) ∧
    (∀ p : Json, stripNonEmpty (partnerNameStr p) = false → partnerCounted p = false) := by
  refine ⟨?_, ?_⟩
  · exact (partnerTotals_fold ps 0 0).trans (by rw [zero_add, zero_add])
  · intro p hp
    cases p with
    | obj fs => exact hp
    | str v => rfl
    | jint n => rfl
    | jfloat q => rfl
    | jbool b => rfl
    | jnull => rfl
    | arr l => rfl

/-- Partner list exercising both a counted and a blank-name entry. -/
def psSample : List Json :=
  [.obj [("name", .str "Bob"), ("settlement", .jfloat 200), ("collection", .jfloat 50)],
   .obj [("name", .str "  "), ("settlement", .jfloat 999)],
   .str "junk"]

attribute [local semireducible] Rat.add Rat.mul Rat.inv Rat.sub in
theorem claim_C8_witness :
    (∀ p ∈ psSample, partnerNameOk p = true) ∧
    calculatePartnerTotals psSample = (200, 50) :=
  ⟨by decide,
    ((claim_C8_partner_totals psSample (by decide)).1).trans (by decide)⟩

/-- Second well-formed order, id 9, for permutation tests. -/
def sampleOrder2 : Order :=
  { id := 9
    customer_name := "Wang"
    customer_phone := "456"
    departure_date := "2025-02-01"
    customer_notes := ""
    payment_methods := []
    deposit_amount := 0
    final_payment_amount := 0
    total_payment_amount := 500
    lines := [.str "Xian"]
    adult_count := 1
    child_count := 0
    adult_price := 500
    child_price := 0
    total_pax_price := 500
    partners := []
    total_revenue := 500
    total_cost := 0
    profit := 500
    total_collection := 0
    created_at := "2025-02-01 09:00:00"
    updated_at := "" }

/-- C9: the persistence path writes the data block sorted: whenever the
clear step does not raise, the issued write carries the header followed by
the encoded orders sorted ascending by id; that id sequence is sorted, and
for collections with distinct ids the sorted row block is invariant under
any permutation of the in-memory collection — the stored row order is a
function of the ids alone. -/
theorem claim_C9_sorted_write (orders l2 : List Order) (clearRes : ClearOutcome)
    (writeRes : WriteOutcome) (hclear : clearRes ≠ .raised)
    (hp : orders.Perm l2) (hn : (orders.map Order.id).Nodup) :
    (saveDataToFeishu orders true clearRes writeRes).2 =
      [.clearReq,
       .writeReq (EXPECTED_COLS :: (pySortedById orders).map encodeOrder).length
         (EXPECTED_COLS :: (pySortedById orders).map encodeOrder)] ∧
    ((pySortedById orders).map Order.id).Sorted (· ≤ ·) ∧
    pySortedById orders = pySortedById l2 :=
  ⟨saveDataToFeishu_actions orders clearRes writeRes hclear,
   pySortedById_sorted orders,
   pySortedById_perm_invariant hp hn⟩

theorem claim_C9_witness :
    (ClearOutcome.ok ≠ ClearOutcome.raised) ∧
    ([sampleOrder2, sampleOrder].Perm [sampleOrder, sampleOrder2]) ∧
    (([sampleOrder2, sampleOrder].map Order.id).Nodup) ∧
    (((pySortedById [sampleOrder2, sampleOrder]).map Order.id).Sorted (· ≤ ·) ∧
      pySortedById [sampleOrder2, sampleOrder] = pySortedById [sampleOrder, sampleOrder2]) :=
  ⟨by decide, List.Perm.swap sampleOrder sampleOrder2 [], by decide,
    (claim_C9_sorted_write [sampleOrder2, sampleOrder] [sampleOrder, sampleOrder2]
      ClearOutcome.ok WriteOutcome.ok (by decide)
      (List.Perm.swap sampleOrder sampleOrder2 []) (by decide)).2⟩

/-- C10: decoding is lenient and total: a short row is padded with empty
trailing cells before per-column conversion (decoding any row equals
decoding its padded form); under the expected header every non-blank data
row of the grid decodes to a record, whatever its length; and a cell whose
numeric parse fails falls back to the column's zero default. -/
theorem claim_C10_lenient_decode :
    (∀ row : List String, decodeRow row = decodeRow (padRow row)) ∧
    (∀ rows : List (List String),
      loadDataFromFeishu (EXPECTED_COLS :: rows) =
        .loaded ((rows.filter isNonBlank).map decodeRow)) ∧
    (∀ s : String, s ≠ "" → parsePyFloat s.data = none →
      intCell s = 0 ∧ floatCell s = 0) := by
  refine ⟨decodeRow_padRow, ?_, ?_⟩
  · intro rows
    unfold loadDataFromFeishu
    simp
  · intro s hne hparse
    refine ⟨?_, ?_⟩
    · unfold intCell
      rw [if_neg hne, hparse]
    · unfold floatCell
      rw [if_neg hne, hparse]

theorem claim_C10_witness :
    (("abc" : String) ≠ "") ∧ parsePyFloat ("abc" : String).data = none ∧
    intCell "abc" = 0 ∧ floatCell "abc" = 0 :=
  ⟨by decide, by decide,
    (claim_C10_lenient_decode.2.2 "abc" (by decide) (by decide)).1,
    (claim_C10_lenient_decode.2.2 "abc" (by decide) (by decide)).2⟩

end Travel
